import Mathlib

/-!
# Domino compiler: strength reduction, variable-reference extraction, identifier census,
packet-function transform, flattening loop, partitioning

A shallow embedding of the parts of the Domino compiler found in
`strength_reduction_handler.cc`, `clang_utility_functions.cc`,
`pkt_func_transform.cc`, `domino.cc` and `partitioning_handler.h`, together with
theorems about them.

Conventions of the embedding.

* The Clang syntax tree is the inductive type `Stmt`; its constructors carry the
  names of the Clang node classes that the source tests with `isa<...>`.
  Node classes the source never names are collapsed into `Stmt.Other`.
* A fatal exit (a failed `assert`, a failed `assert_exception`, a thrown
  `std::logic_error`) is the value `none`; a normal return `r` is `some r`.
  Assertions are taken as enabled.
* `std::set<std::string>` is `Finset String`; the `+` of `set_idioms.h` is union.
* `clang_stmt_printer` wraps Clang's pretty printer, which is a library outside
  the repository.  Functions that call it take the printer as an argument, so
  that every theorem holds for an arbitrary printer; `printPretty` is a concrete
  printer for the restricted grammar, used to evaluate the functions on examples.
  In the same way the declaration printer, the library sort and the flattening
  pass are arguments of the functions that call them.
-/

namespace Domino

/-! ## Syntax trees -/

/-- Statements and expressions of the Clang syntax tree, one constructor per
node class distinguished by the source. -/
inductive Stmt where
  | CompoundStmt (body : List Stmt)
  | IfStmt (cond thenStmt : Stmt) (elseStmt : Option Stmt)
  | BinaryOperator (opcode : String) (lhs rhs : Stmt)
  | ConditionalOperator (cond trueExpr falseExpr : Stmt)
  | MemberExpr (base : Stmt) (isArrow : Bool) (member : String)
  | DeclRefExpr (name : String)
  | ArraySubscriptExpr (base idx : Stmt)
  | IntegerLiteral (value : Nat)
  | ParenExpr (subExpr : Stmt)
  | UnaryOperator (opcode : String) (subExpr : Stmt)
  | ImplicitCastExpr (subExpr : Stmt)
  | CallExpr (callee : Stmt) (args : List Stmt)
  | Other (stmtClassName : String) (children : List Stmt)

/-- The test `isa<IntegerLiteral>(e)`. -/
def isIntegerLiteral : Stmt → Bool
  | .IntegerLiteral _ => true
  | _ => false

/-- The test `isa<ConditionalOperator>(e)`. -/
def isConditionalOperator : Stmt → Bool
  | .ConditionalOperator _ _ _ => true
  | _ => false

/-- Clang's `Expr::IgnoreParenImpCasts`: peel parentheses and implicit casts off
the outside of an expression.  The other wrappers Clang also peels do not occur
among the node classes of `Stmt`. -/
def IgnoreParenImpCasts : Stmt → Stmt
  | .ParenExpr e => IgnoreParenImpCasts e
  | .ImplicitCastExpr e => IgnoreParenImpCasts e
  | e => e

/-- Clang's `BinaryOperator::isAssignmentOp`: plain and compound assignments,
by opcode spelling. -/
def isAssignmentOp (opcode : String) : Bool :=
  opcode ∈ ["=", "*=", "/=", "%=", "+=", "-=", "<<=", ">>=", "&=", "^=", "|="]

/-- Clang's `UnaryOperator::isArithmeticOp`: unary plus, minus, bitwise not and
logical not, by opcode spelling. -/
def isArithmeticOp (opcode : String) : Bool :=
  opcode ∈ ["+", "-", "~", "!"]

/-! ## A concrete pretty printer -/

mutual
/-- A concrete printer for the restricted grammar, in the layout Clang's
statement printer uses for expressions. -/
def printPretty : Stmt → String
  | .CompoundStmt body => "\x7b " ++ printPrettyStmts body ++ "\x7d"
  | .IfStmt c t (some e) =>
      "if (" ++ printPretty c ++ ") " ++ printPretty t ++ " else " ++ printPretty e
  | .IfStmt c t none => "if (" ++ printPretty c ++ ") " ++ printPretty t
  | .BinaryOperator op l r => printPretty l ++ " " ++ op ++ " " ++ printPretty r
  | .ConditionalOperator c t f =>
      printPretty c ++ " ? " ++ printPretty t ++ " : " ++ printPretty f
  | .MemberExpr b arrow m => printPretty b ++ (if arrow then "->" else ".") ++ m
  | .DeclRefExpr n => n
  | .ArraySubscriptExpr b i => printPretty b ++ "[" ++ printPretty i ++ "]"
  | .IntegerLiteral v => toString v
  | .ParenExpr e => "(" ++ printPretty e ++ ")"
  | .UnaryOperator op e => op ++ printPretty e
  | .ImplicitCastExpr e => printPretty e
  | .CallExpr f args => printPretty f ++ "(" ++ printPrettyArgs args ++ ")"
  | .Other cls _ => "<" ++ cls ++ ">"
/-- Statements of a block, each followed by a semicolon. -/
def printPrettyStmts : List Stmt → String
  | [] => ""
  | s :: rest => printPretty s ++ "; " ++ printPrettyStmts rest
/-- Call arguments, separated by commas. -/
def printPrettyArgs : List Stmt → String
  | [] => ""
  | [a] => printPretty a
  | a :: b :: rest => printPretty a ++ ", " ++ printPrettyArgs (b :: rest)
end

/-! ## Strength reduction (`strength_reduction_handler.cc`) -/

namespace StrengthReductionHandler

/-- The body of the loop of `StrengthReductionHandler::transform` for one child
of the function body: the text appended to `output`, or `none` when one of the
assertions fails. -/
def transform_child (clang_stmt_printer : Stmt → String) (child : Stmt) : Option String :=
  match child with
  | .BinaryOperator opcode lhs rhs0 =>
    if isAssignmentOp opcode then
      match IgnoreParenImpCasts rhs0 with
      | .ConditionalOperator cond0 trueExpr falseExpr =>
        match IgnoreParenImpCasts cond0 with
        | .IntegerLiteral _ =>
          some (clang_stmt_printer lhs ++ " = " ++ clang_stmt_printer trueExpr ++ ";")
        | .BinaryOperator condOpcode left_bool_op right_bool_op =>
          if condOpcode = "&&" then
            if isIntegerLiteral left_bool_op && isIntegerLiteral right_bool_op then none
            else
              let simplified_pred :=
                if isIntegerLiteral left_bool_op then right_bool_op
                else if isIntegerLiteral right_bool_op then left_bool_op
                else .BinaryOperator condOpcode left_bool_op right_bool_op
              some (clang_stmt_printer lhs ++ " = " ++ clang_stmt_printer simplified_pred
                    ++ " ? " ++ clang_stmt_printer trueExpr
                    ++ " : " ++ clang_stmt_printer falseExpr ++ ";")
          else none
        | _ => none
      | _ => some (clang_stmt_printer child ++ ";")
    else none
  | _ => none

/-- The loop of `StrengthReductionHandler::transform` over the children of the
function body, threading the accumulated `output`. -/
def transform_loop (clang_stmt_printer : Stmt → String) (output : String) :
    List Stmt → Option String
  | [] => some output
  | child :: rest =>
    match transform_child clang_stmt_printer child with
    | none => none
    | some piece => transform_loop clang_stmt_printer (output ++ piece) rest

/-- The function `StrengthReductionHandler::transform`: the transformed body
text paired with the (always empty) list of new declarations. -/
def transform (clang_stmt_printer : Stmt → String) (function_body : Stmt)
    (_pkt_name : String) : Option (String × List String) :=
  match function_body with
  | .CompoundStmt children =>
    match transform_loop clang_stmt_printer "" children with
    | none => none
    | some output => some (output, [])
  | _ => none

end StrengthReductionHandler

/-! ## Expression values under C truthiness -/

/-- A valuation of the variables of a program: scalar state variables, packet
fields (by packet name and field name) and array cells. -/
structure Valuation where
  var : String → Int
  field : String → String → Int
  array : String → Int → Int

/-- The integer that C gives a truth value. -/
def ofBool (b : Bool) : Int := if b then 1 else 0

/-- Arithmetic and comparison operators, over mathematical integers. -/
def evalBinary (op : String) (a b : Int) : Option Int :=
  if op = "+" then some (a + b)
  else if op = "-" then some (a - b)
  else if op = "*" then some (a * b)
  else if op = "==" then some (ofBool (decide (a = b)))
  else if op = "!=" then some (ofBool (decide (a ≠ b)))
  else if op = "<" then some (ofBool (decide (a < b)))
  else if op = "<=" then some (ofBool (decide (a ≤ b)))
  else if op = ">" then some (ofBool (decide (b < a)))
  else if op = ">=" then some (ofBool (decide (b ≤ a)))
  else none

/-- The value of a side-effect-free expression under a valuation, with C
semantics for truth: zero is false, anything else is true, `&&` and `||`
short-circuit and yield 0 or 1, and `c ? t : f` evaluates only the selected arm.
Forms the evaluator does not cover have no value. -/
def eval (ρ : Valuation) : Stmt → Option Int
  | .IntegerLiteral n => some (n : Int)
  | .DeclRefExpr x => some (ρ.var x)
  | .MemberExpr b _ m =>
    match IgnoreParenImpCasts b with
    | .DeclRefExpr p => some (ρ.field p m)
    | _ => none
  | .ArraySubscriptExpr b i =>
    match IgnoreParenImpCasts b, eval ρ i with
    | .DeclRefExpr a, some k => some (ρ.array a k)
    | _, _ => none
  | .ParenExpr e => eval ρ e
  | .ImplicitCastExpr e => eval ρ e
  | .UnaryOperator op e =>
    if op = "!" then (eval ρ e).map (fun v => ofBool (decide (v = 0))) else none
  | .BinaryOperator op l r =>
    if op = "&&" then
      match eval ρ l with
      | none => none
      | some a => if a = 0 then some 0 else (eval ρ r).map (fun b => ofBool (decide (b ≠ 0)))
    else if op = "||" then
      match eval ρ l with
      | none => none
      | some a => if a = 0 then (eval ρ r).map (fun b => ofBool (decide (b ≠ 0))) else some 1
    else
      match eval ρ l, eval ρ r with
      | some a, some b => evalBinary op a b
      | _, _ => none
  | .ConditionalOperator c t f =>
    match eval ρ c with
    | none => none
    | some v => if v = 0 then eval ρ f else eval ρ t
  | _ => none

/-! ## Variable-reference extraction (`clang_utility_functions.cc`) -/

/-- The selector `VariableTypeSelector`: for each variable category, whether it
is collected.  The source type is a map from category to flag that is read with
`at`; the structure is that map with all three keys present. -/
structure VariableTypeSelector where
  PACKET : Bool
  STATE : Bool
  FUNCTION_PARAMETER : Bool

mutual
/-- The function `gen_var_list`: the printed forms of the packet fields and
state variables used within `stmt`, or `none` when the scan throws. -/
def gen_var_list (clang_stmt_printer : Stmt → String) (var_selector : VariableTypeSelector) :
    Stmt → Option (Finset String)
  | .CompoundStmt children => gen_var_list_loop clang_stmt_printer var_selector ∅ children
  | .IfStmt cond thenStmt (some elseStmt) =>
    match gen_var_list clang_stmt_printer var_selector cond,
          gen_var_list clang_stmt_printer var_selector thenStmt,
          gen_var_list clang_stmt_printer var_selector elseStmt with
    | some a, some b, some c => some (a ∪ b ∪ c)
    | _, _, _ => none
  | .IfStmt cond thenStmt none =>
    match gen_var_list clang_stmt_printer var_selector cond,
          gen_var_list clang_stmt_printer var_selector thenStmt with
    | some a, some b => some (a ∪ b)
    | _, _ => none
  | .BinaryOperator _ lhs rhs =>
    match gen_var_list clang_stmt_printer var_selector lhs,
          gen_var_list clang_stmt_printer var_selector rhs with
    | some a, some b => some (a ∪ b)
    | _, _ => none
  | .ConditionalOperator cond trueExpr falseExpr =>
    match gen_var_list clang_stmt_printer var_selector cond,
          gen_var_list clang_stmt_printer var_selector trueExpr,
          gen_var_list clang_stmt_printer var_selector falseExpr with
    | some a, some b, some c => some (a ∪ b ∪ c)
    | _, _, _ => none
  | .MemberExpr base isArrow member =>
    if var_selector.PACKET then some {clang_stmt_printer (.MemberExpr base isArrow member)}
    else some ∅
  | .DeclRefExpr name =>
    if var_selector.STATE then some {clang_stmt_printer (.DeclRefExpr name)} else some ∅
  | .ArraySubscriptExpr base idx =>
    if var_selector.STATE then some {clang_stmt_printer (.ArraySubscriptExpr base idx)}
    else some ∅
  | .IntegerLiteral _ => some ∅
  | .ParenExpr subExpr => gen_var_list clang_stmt_printer var_selector subExpr
  | .UnaryOperator opcode subExpr =>
    if isArithmeticOp opcode then
      if opcode = "!" then gen_var_list clang_stmt_printer var_selector subExpr else none
    else none
  | .ImplicitCastExpr subExpr => gen_var_list clang_stmt_printer var_selector subExpr
  | .CallExpr _ args => gen_var_list_loop clang_stmt_printer var_selector ∅ args
  | .Other _ _ => none
/-- The two loops of `gen_var_list` (over the children of a block, over the
arguments of a call): `ret = ret + gen_var_list(child)` for each child in turn. -/
def gen_var_list_loop (clang_stmt_printer : Stmt → String)
    (var_selector : VariableTypeSelector) (ret : Finset String) :
    List Stmt → Option (Finset String)
  | [] => some ret
  | child :: rest =>
    match gen_var_list clang_stmt_printer var_selector child with
    | none => none
    | some child_uses =>
      gen_var_list_loop clang_stmt_printer var_selector (ret ∪ child_uses) rest
end

/-! ### Reference sites, for comparison with `gen_var_list` -/

/-- Whether a node has a form outside the restricted grammar: a node class
that is none of block, if, binary operator, ternary, member expression, variable
reference, array subscript, integer literal, parenthesis, implicit cast, call,
or a unary operator other than logical negation. -/
def outsideGrammar : Stmt → Bool
  | .Other _ _ => true
  | .UnaryOperator opcode _ => !(isArithmeticOp opcode && decide (opcode = "!"))
  | _ => false

/-- The reference a single node stands for under a selector: a member
expression is a packet-field read, a variable reference or an array subscript
is a state-variable reference; each is named by its printed form. -/
def refOf (clang_stmt_printer : Stmt → String) (var_selector : VariableTypeSelector)
    (node : Stmt) : Option String :=
  match node with
  | .MemberExpr _ _ _ => if var_selector.PACKET then some (clang_stmt_printer node) else none
  | .DeclRefExpr _ => if var_selector.STATE then some (clang_stmt_printer node) else none
  | .ArraySubscriptExpr _ _ =>
    if var_selector.STATE then some (clang_stmt_printer node) else none
  | _ => none

/-- The set of references that a list of nodes stands for. -/
def refSet (clang_stmt_printer : Stmt → String) (var_selector : VariableTypeSelector)
    (nodes : List Stmt) : Finset String :=
  (nodes.filterMap (refOf clang_stmt_printer var_selector)).toFinset

mutual
/-- All nodes of a tree, at any depth: the node itself and the nodes of every
operand, including the base of a member expression, the base and the index of
an array subscript, and the callee of a call. -/
def subterms : Stmt → List Stmt
  | .CompoundStmt body => .CompoundStmt body :: subtermsList body
  | .IfStmt c t (some e) => .IfStmt c t (some e) :: (subterms c ++ subterms t ++ subterms e)
  | .IfStmt c t none => .IfStmt c t none :: (subterms c ++ subterms t)
  | .BinaryOperator op l r => .BinaryOperator op l r :: (subterms l ++ subterms r)
  | .ConditionalOperator c t f =>
    .ConditionalOperator c t f :: (subterms c ++ subterms t ++ subterms f)
  | .MemberExpr b a m => .MemberExpr b a m :: subterms b
  | .DeclRefExpr n => [.DeclRefExpr n]
  | .ArraySubscriptExpr b i => .ArraySubscriptExpr b i :: (subterms b ++ subterms i)
  | .IntegerLiteral v => [.IntegerLiteral v]
  | .ParenExpr e => .ParenExpr e :: subterms e
  | .UnaryOperator op e => .UnaryOperator op e :: subterms e
  | .ImplicitCastExpr e => .ImplicitCastExpr e :: subterms e
  | .CallExpr f args => .CallExpr f args :: (subterms f ++ subtermsList args)
  | .Other cls children => .Other cls children :: subtermsList children
/-- All nodes of the trees of a list. -/
def subtermsList : List Stmt → List Stmt
  | [] => []
  | s :: rest => subterms s ++ subtermsList rest
end

mutual
/-- The nodes of a tree at the positions the scan of `gen_var_list` reaches:
it descends through blocks, ifs, binary operators, ternaries, parentheses,
unary operators, implicit casts and the arguments of calls, and it stops at
member expressions, variable references, array subscripts, integer literals
and nodes of any other class. -/
def visited : Stmt → List Stmt
  | .CompoundStmt body => .CompoundStmt body :: visitedList body
  | .IfStmt c t (some e) => .IfStmt c t (some e) :: (visited c ++ visited t ++ visited e)
  | .IfStmt c t none => .IfStmt c t none :: (visited c ++ visited t)
  | .BinaryOperator op l r => .BinaryOperator op l r :: (visited l ++ visited r)
  | .ConditionalOperator c t f =>
    .ConditionalOperator c t f :: (visited c ++ visited t ++ visited f)
  | .MemberExpr b a m => [.MemberExpr b a m]
  | .DeclRefExpr n => [.DeclRefExpr n]
  | .ArraySubscriptExpr b i => [.ArraySubscriptExpr b i]
  | .IntegerLiteral v => [.IntegerLiteral v]
  | .ParenExpr e => .ParenExpr e :: visited e
  | .UnaryOperator op e => .UnaryOperator op e :: visited e
  | .ImplicitCastExpr e => .ImplicitCastExpr e :: visited e
  | .CallExpr f args => .CallExpr f args :: visitedList args
  | .Other cls children => [.Other cls children]
/-- The nodes the scan reaches in the trees of a list. -/
def visitedList : List Stmt → List Stmt
  | [] => []
  | s :: rest => visited s ++ visitedList rest
end

/-! ## Identifier census (`clang_utility_functions.cc`) -/

/-- A function parameter: its name and the spelling of its type. -/
structure ParmVarDecl where
  name : String
  type : String

/-- Top-level declarations, by the classes the source distinguishes.  A record
carries the names of its fields; `ValueDecl` stands for a value declaration that
is neither a function nor a variable; `Other` is any declaration that is none of
record, function, value declaration or typedef. -/
inductive Decl where
  | RecordDecl (name : String) (fields : List String)
  | FunctionDecl (returnType name : String) (params : List ParmVarDecl) (body : Option Stmt)
  | VarDecl (name : String)
  | ValueDecl (declKindName name : String)
  | TypedefDecl (name : String)
  | Other (declKindName : String)

/-- A translation unit: its top-level declarations in source order. -/
structure TranslationUnitDecl where
  decls : List Decl

/-- The body of the loop of `identifier_census` for one top-level declaration:
the identifier set after the declaration, or `none` when the assertion of the
last branch fails. -/
def identifier_census_child (var_selector : VariableTypeSelector)
    (identifiers : Finset String) : Decl → Option (Finset String)
  | .RecordDecl _ fields =>
    if var_selector.PACKET then
      some (fields.foldl (fun ids field_decl => insert field_decl ids) identifiers)
    else some identifiers
  | .FunctionDecl _ name params _ =>
    if var_selector.FUNCTION_PARAMETER then
      some (params.foldl (fun ids parm_decl => insert parm_decl.name ids)
              (insert name identifiers))
    else some identifiers
  | .VarDecl name =>
    if var_selector.STATE then some (insert name identifiers) else some identifiers
  | .ValueDecl _ name =>
    if var_selector.STATE then some (insert name identifiers) else some identifiers
  | .TypedefDecl _ => some identifiers
  | .Other _ => none

/-- The loop of `identifier_census` over the top-level declarations. -/
def identifier_census_loop (var_selector : VariableTypeSelector)
    (identifiers : Finset String) : List Decl → Option (Finset String)
  | [] => some identifiers
  | child_decl :: rest =>
    match identifier_census_child var_selector identifiers child_decl with
    | none => none
    | some ids => identifier_census_loop var_selector ids rest

/-- The function `identifier_census`: the identifiers declared at top level in
the selected categories. -/
def identifier_census (decl : TranslationUnitDecl) (var_selector : VariableTypeSelector) :
    Option (Finset String) :=
  identifier_census_loop var_selector ∅ decl.decls

/-! ### Declared names by category, for comparison with `identifier_census` -/

/-- Whether a top-level declaration is none of record, function, value
declaration or typedef. -/
def unclassifiable : Decl → Bool
  | .Other _ => true
  | _ => false

/-- The field names of a record declaration; nothing for any other declaration. -/
def recordFieldNames : Decl → List String
  | .RecordDecl _ fields => fields
  | _ => []

/-- The name and the parameter names of a function declaration; nothing for any
other declaration. -/
def functionNames : Decl → List String
  | .FunctionDecl _ name params _ => name :: params.map (fun p => p.name)
  | _ => []

/-- The name of a value declaration that is neither a function nor a record;
nothing for any other declaration. -/
def stateNames : Decl → List String
  | .VarDecl name => [name]
  | .ValueDecl _ name => [name]
  | _ => []

/-- The union the census contract describes: the field names of every record if
PACKET is selected, the name and parameter names of every function if
FUNCTION_PARAMETER is selected, and the name of every other value declaration if
STATE is selected. -/
def selectedNames (var_selector : VariableTypeSelector) (decls : List Decl) : Finset String :=
  (if var_selector.PACKET then (decls.map recordFieldNames).flatten.toFinset else ∅) ∪
  (if var_selector.FUNCTION_PARAMETER then (decls.map functionNames).flatten.toFinset else ∅) ∪
  (if var_selector.STATE then (decls.map stateNames).flatten.toFinset else ∅)

/-! ## Packet-function transform (`pkt_func_transform.cc`, `clang_utility_functions.cc`) -/

/-- The function `is_packet_func`, on the parameter list of a function
declaration: `none` when the assertion on the number of parameters fails. -/
def is_packet_func (params : List ParmVarDecl) : Option Bool :=
  match params with
  | [] => none
  | param0 :: _ => some (decide (params.length = 1) && decide (param0.type = "struct Packet"))

/-- The function `get_order`: the rank by which declarations are sorted, or
`none` when `is_packet_func` throws or the final assertion fails. -/
def get_order : Decl → Option Int
  | .VarDecl _ => some 1
  | .RecordDecl _ _ => some 2
  | .FunctionDecl _ _ params _ =>
    match is_packet_func params with
    | none => none
    | some false => some 3
    | some true => some 4
  | .TypedefDecl _ => some 5
  | .ValueDecl _ _ => none
  | .Other _ => none

/-- The rank of a declaration as an integer, for the comparator of the sort; it
is read only where `get_order` returns. -/
def orderKey (decl : Decl) : Int := (get_order decl).getD (-1)

/-- The body of the second loop of `pkt_func_transform` for one declaration: the
text appended to `ret` (empty when neither branch applies), or `none` on a
fatal exit.  The body transform is handed the body of the packet function; a
packet function without a block as body hands it a null pointer, which is
taken as fatal. -/
def pkt_func_transform_child (clang_decl_printer : Decl → String)
    (func_body_transform : Stmt → Option (String × List String)) (child_decl : Decl) :
    Option String :=
  match child_decl with
  | .VarDecl _ => some (clang_decl_printer child_decl ++ ";")
  | .RecordDecl _ _ => some (clang_decl_printer child_decl ++ ";")
  | .FunctionDecl returnType name params body =>
    match is_packet_func params with
    | none => none
    | some false => some (clang_decl_printer child_decl ++ ";")
    | some true =>
      match body, params with
      | some (.CompoundStmt children), pkt_param :: _ =>
        match func_body_transform (.CompoundStmt children) with
        | none => none
        | some (transformed_body, _) =>
          some (returnType ++ " " ++ name ++ "( " ++ pkt_param.type ++ " " ++ pkt_param.name
                ++ ") \x7b " ++ transformed_body ++ "\x7d\n")
      | _, _ => none
  | _ => some ""

/-- The second loop of `pkt_func_transform`, over the sorted declarations,
threading the accumulated `ret`. -/
def pkt_func_transform_loop (clang_decl_printer : Decl → String)
    (func_body_transform : Stmt → Option (String × List String)) (ret : String) :
    List Decl → Option String
  | [] => some ret
  | child_decl :: rest =>
    match pkt_func_transform_child clang_decl_printer func_body_transform child_decl with
    | none => none
    | some piece =>
      pkt_func_transform_loop clang_decl_printer func_body_transform (ret ++ piece) rest

/-- The function `pkt_func_transform`.  The library sort `std::sort` is the
argument `std_sort`, called with the comparator
`get_order(decl1) < get_order(decl2)`.  A sort of two or more elements compares
every element at least once, so it evaluates `get_order` on every declaration
and a throwing `get_order` makes the sort throw; a sort of fewer than two
elements makes no comparison and leaves the list as it is. -/
def pkt_func_transform (std_sort : (Decl → Decl → Bool) → List Decl → List Decl)
    (clang_decl_printer : Decl → String) (tu_decl : TranslationUnitDecl)
    (func_body_transform : Stmt → Option (String × List String)) : Option String :=
  let all_decls := tu_decl.decls
  if 2 ≤ all_decls.length then
    if all_decls.all (fun decl => (get_order decl).isSome) then
      pkt_func_transform_loop clang_decl_printer func_body_transform ""
        (std_sort (fun decl1 decl2 => decide (orderKey decl1 < orderKey decl2)) all_decls)
    else none
  else pkt_func_transform_loop clang_decl_printer func_body_transform "" all_decls

/-- A concrete sort that meets the contract, for evaluating `pkt_func_transform`
on examples: insertion sort. -/
def insertion_sort (lt : Decl → Decl → Bool) (l : List Decl) : List Decl :=
  l.insertionSort (fun a b => lt b a = false)

/-! ### Kinds of declaration, for comparison with the order of `pkt_func_transform` -/

/-- A concrete declaration printer for examples: the kind and the name. -/
def printDecl : Decl → String
  | .RecordDecl name _ => "struct " ++ name
  | .FunctionDecl returnType name _ _ => returnType ++ " " ++ name ++ "()"
  | .VarDecl name => "int " ++ name
  | .ValueDecl _ name => name
  | .TypedefDecl name => "typedef " ++ name
  | .Other declKindName => declKindName

/-! ## The flattening loop of the driver (`domino.cc`) -/

/-- The `while (true)` loop of `main`, from `old_output`: apply the flattening
pass, stop with the new text when it equals the old one, otherwise go round
with the new text.  The pass (`SinglePass` over `ExprFlattenerHandler::transform`)
is the argument `flatten`, a function of the program text.  The loop has no
bound of its own; `fuel` bounds the number of applications of the pass, and the
result is `none` when the loop is still running after that many. -/
def flatten_loop (flatten : String → String) : Nat → String → Option String
  | 0, _ => none
  | fuel + 1, old_output =>
    if flatten old_output = old_output then some (flatten old_output)
    else flatten_loop flatten fuel (flatten old_output)

/-! ## Partitioning (`partitioning_handler.h`) -/

/-- Modelled from the spec: the body of `PartitioningHandler::partition_into_pipeline`
is absent from the repository (only its declaration is there).  This is the rule
of the scheduler for one instruction, given the instructions that appear
before it, each with its stage: stage 0 if no earlier instruction has a
dependency edge to it, else one more than the greatest stage among its
predecessors.  The test `depends` tells whether the earlier instruction must
precede the later one. -/
def asap_stage {α : Type} (depends : α → α → Bool) (earlier : List (α × Nat)) (inst : α) : Nat :=
  earlier.foldl (fun stage p => if depends p.1 inst then max stage (p.2 + 1) else stage) 0

/-- Modelled from the spec: the body of `PartitioningHandler::partition_into_pipeline`
is absent from the repository.  Stages are assigned to the instructions in order
of appearance; `scheduled` holds the instructions already given a stage. -/
def partition_loop {α : Type} (depends : α → α → Bool) :
    List (α × Nat) → List α → List (α × Nat)
  | scheduled, [] => scheduled
  | scheduled, inst :: rest =>
    partition_loop depends (scheduled ++ [(inst, asap_stage depends scheduled inst)]) rest

/-- Modelled from the spec: the body of `PartitioningHandler::partition_into_pipeline`
is absent from the repository.  The dependency graph has an edge from `i` to `j`
for each pair with `i` appearing before `j` and `depends i j`; every instruction
gets the earliest stage its predecessors allow.  The result lists the
instructions in order of appearance, each with its stage. -/
def partition_into_pipeline {α : Type} (depends : α → α → Bool) (inst_vector : List α) :
    List (α × Nat) :=
  partition_loop depends [] inst_vector

/-- An instruction as the scheduler sees it, for examples: the variable it
writes and the variables it reads. -/
structure Instruction where
  writes : String
  reads : List String

/-- Modelled from the spec: the body of `PartitioningHandler::depends` is absent
from the repository.  The later instruction reads the variable the earlier one
writes. -/
def reads_written (op1 op2 : Instruction) : Bool :=
  decide (op1.writes ∈ op2.reads)

/-! ## Theorems: strength reduction -/


namespace StrengthReductionHandler

/-- A child on which the loop body fails makes the whole loop fail, whatever
has been accumulated so far. -/
theorem transform_loop_eq_none_of_mem (pp : Stmt → String) (child : Stmt)
    (hchild : transform_child pp child = none) :
    ∀ (children : List Stmt) (output : String), child ∈ children →
      transform_loop pp output children = none
  | [], _, h => by simp at h
  | c :: rest, output, h => by
    rcases List.mem_cons.mp h with rfl | h
    · simp [transform_loop, hchild]
    · cases hc : transform_child pp c with
      | none => simp [transform_loop, hc]
      | some piece =>
        simp only [transform_loop, hc]
        exact transform_loop_eq_none_of_mem pp child hchild rest _ h

/-- The loop body fails on an assignment whose right-hand side is a ternary
whose condition is neither an integer literal nor a binary `&&`. -/
theorem transform_child_eq_none_of_cond (pp : Stmt → String) (opcode : String)
    (lhs rhs cond trueExpr falseExpr : Stmt)
    (hrhs : IgnoreParenImpCasts rhs = .ConditionalOperator cond trueExpr falseExpr)
    (hlit : isIntegerLiteral (IgnoreParenImpCasts cond) = false)
    (hand : ∀ l r, IgnoreParenImpCasts cond ≠ .BinaryOperator "&&" l r) :
    transform_child pp (.BinaryOperator opcode lhs rhs) = none := by
  unfold transform_child
  by_cases hop : isAssignmentOp opcode = true
  · simp only [hop, if_true, hrhs]
    cases hc : IgnoreParenImpCasts cond with
    | IntegerLiteral v => simp [hc, isIntegerLiteral] at hlit
    | BinaryOperator op l r =>
      by_cases hop2 : op = "&&"
      · subst hop2
        exact absurd hc (hand l r)
      · simp [hop2]
    | _ => rfl
  · simp [hop]

/-- When the loop succeeds, its result is the accumulator followed by one piece
per child, in order, each piece being what the loop body returns for its child. -/
theorem transform_loop_pieces (pp : Stmt → String) :
    ∀ (children : List Stmt) (output out : String),
      transform_loop pp output children = some out →
      ∃ pieces : List String,
        List.Forall₂ (fun c p => transform_child pp c = some p) children pieces ∧
        out = pieces.foldl (fun acc p => acc ++ p) output
  | [], output, out, h => by
    simp only [transform_loop, Option.some.injEq] at h
    exact ⟨[], List.Forall₂.nil, by simp [h]⟩
  | c :: rest, output, out, h => by
    cases hc : transform_child pp c with
    | none => simp [transform_loop, hc] at h
    | some piece =>
      simp only [transform_loop, hc] at h
      obtain ⟨pieces, hall, hout⟩ := transform_loop_pieces pp rest _ out h
      exact ⟨piece :: pieces, List.Forall₂.cons hc hall, by simpa using hout⟩

/-- The shape of what the loop body returns: the child is an assignment, and the
piece is the child verbatim when its right-hand side is not a ternary, and
otherwise an assignment to the same left-hand side of one arm or of a ternary
over the same two arms. -/
theorem transform_child_shape (pp : Stmt → String) (child : Stmt) (piece : String)
    (h : transform_child pp child = some piece) :
    ∃ opcode lhs rhs, child = .BinaryOperator opcode lhs rhs ∧ isAssignmentOp opcode = true ∧
      (isConditionalOperator (IgnoreParenImpCasts rhs) = false → piece = pp child ++ ";") ∧
      (∀ cond trueExpr falseExpr,
        IgnoreParenImpCasts rhs = .ConditionalOperator cond trueExpr falseExpr →
        piece = pp lhs ++ " = " ++ pp trueExpr ++ ";" ∨
        ∃ pred, piece = pp lhs ++ " = " ++ pp pred ++ " ? " ++ pp trueExpr
                          ++ " : " ++ pp falseExpr ++ ";") := by
  cases child with
  | BinaryOperator opcode lhs rhs =>
    refine ⟨opcode, lhs, rhs, rfl, ?_⟩
    unfold transform_child at h
    by_cases hop : isAssignmentOp opcode = true
    · refine ⟨hop, ?_, ?_⟩
      · intro hnc
        simp only [hop, if_true] at h
        cases hr : IgnoreParenImpCasts rhs with
        | ConditionalOperator c t f => simp [hr, isConditionalOperator] at hnc
        | _ => simp only [hr] at h; exact (Option.some.inj h).symm
      · intro c t f hr
        simp only [hop, if_true, hr] at h
        cases hc : IgnoreParenImpCasts c with
        | IntegerLiteral v =>
          simp only [hc] at h
          exact Or.inl (Option.some.inj h).symm
        | BinaryOperator op l r =>
          simp only [hc] at h
          by_cases hop2 : op = "&&"
          · simp only [hop2, if_true] at h
            by_cases hboth : (isIntegerLiteral l && isIntegerLiteral r) = true
            · simp [hboth] at h
            · simp only [hboth] at h
              exact Or.inr ⟨_, (Option.some.inj h).symm⟩
          · simp [hop2] at h
        | _ => simp [hc] at h
    · simp [hop] at h
  | _ => simp [transform_child] at h


/-- The loop body on an assignment whose ternary condition is an integer
literal: the true arm is assigned, whatever the value of the literal. -/
theorem transform_child_of_literal (pp : Stmt → String) (opcode : String)
    (lhs rhs cond trueExpr falseExpr : Stmt) (v : Nat)
    (hop : isAssignmentOp opcode = true)
    (hrhs : IgnoreParenImpCasts rhs = .ConditionalOperator cond trueExpr falseExpr)
    (hcond : IgnoreParenImpCasts cond = .IntegerLiteral v) :
    transform_child pp (.BinaryOperator opcode lhs rhs)
      = some (pp lhs ++ " = " ++ pp trueExpr ++ ";") := by
  simp only [transform_child, hop, if_true, hrhs, hcond]

/-- The loop body on an assignment whose ternary condition is `a && b` with
not both operands integer literals. -/
theorem transform_child_of_and (pp : Stmt → String) (opcode : String)
    (lhs rhs cond trueExpr falseExpr a b : Stmt)
    (hop : isAssignmentOp opcode = true)
    (hrhs : IgnoreParenImpCasts rhs = .ConditionalOperator cond trueExpr falseExpr)
    (hcond : IgnoreParenImpCasts cond = .BinaryOperator "&&" a b)
    (hboth : (isIntegerLiteral a && isIntegerLiteral b) = false) :
    transform_child pp (.BinaryOperator opcode lhs rhs)
      = some (pp lhs ++ " = "
              ++ pp (if isIntegerLiteral a then b
                     else if isIntegerLiteral b then a else .BinaryOperator "&&" a b)
              ++ " ? " ++ pp trueExpr ++ " : " ++ pp falseExpr ++ ";") := by
  simp only [transform_child, hop, if_true, hrhs, hcond, hboth]
  simp

/-- The transform on a body of one child is the piece of that child. -/
theorem transform_singleton (pp : Stmt → String) (child : Stmt) (pkt_name piece : String)
    (h : transform_child pp child = some piece) :
    transform pp (.CompoundStmt [child]) pkt_name = some (piece, []) := by
  simp [transform, transform_loop, h]

/-- The value of a ternary whose condition is `a && b` with one operand a
nonzero integer literal is the value of the ternary over the other operand:
for a literal that is not zero the rewrite of the condition preserves values. -/
theorem eval_and_rewrite_of_nonzero (ρ : Valuation) (a b trueExpr falseExpr : Stmt)
    (hlit : (∃ v, a = .IntegerLiteral v ∧ v ≠ 0) ∨
            ((∃ v, b = .IntegerLiteral v ∧ v ≠ 0) ∧ isIntegerLiteral a = false)) :
    eval ρ (.ConditionalOperator
              (if isIntegerLiteral a then b
               else if isIntegerLiteral b then a else .BinaryOperator "&&" a b)
              trueExpr falseExpr)
      = eval ρ (.ConditionalOperator (.BinaryOperator "&&" a b) trueExpr falseExpr) := by
  rcases hlit with ⟨v, rfl, hv⟩ | ⟨⟨v, rfl, hv⟩, ha⟩
  · have hv' : ((v : Int) = 0) = False := by simp [hv]
    simp only [isIntegerLiteral, if_true, eval, hv']
    cases hb : eval ρ b with
    | none => simp
    | some w =>
      by_cases hw : w = 0
      · simp [hw, ofBool]
      · simp [hw, ofBool]
  · have hv' : ((v : Int) = 0) = False := by simp [hv]
    simp only [ha, Bool.false_eq_true, if_false]
    simp only [isIntegerLiteral, if_true, eval]
    cases hb : eval ρ a with
    | none => simp
    | some w =>
      by_cases hw : w = 0
      · simp [hw]
      · simp [hw, hv', ofBool, hv]


/-- C1 (code defect): on `x = 0 ? a : b;` the transform emits `x = a;`, the
true arm, although the literal condition is zero and the right-hand side has the
value of `b` under every valuation. -/
theorem transform_zero_literal_emits_true_arm :
    transform printPretty
        (.CompoundStmt [.BinaryOperator "=" (.DeclRefExpr "x")
          (.ConditionalOperator (.IntegerLiteral 0)
            (.ImplicitCastExpr (.DeclRefExpr "a")) (.ImplicitCastExpr (.DeclRefExpr "b")))])
        "pkt"
      = some ("x = a;", []) ∧
    ∀ ρ : Valuation,
      eval ρ (.ConditionalOperator (.IntegerLiteral 0)
            (.ImplicitCastExpr (.DeclRefExpr "a")) (.ImplicitCastExpr (.DeclRefExpr "b")))
        = some (ρ.var "b") :=
  ⟨by decide, fun ρ => by simp [eval]⟩

/-- C2: a function body that contains an assignment whose right-hand side is,
under parentheses and implicit casts, a ternary whose condition is, under
parentheses and implicit casts, neither an integer literal nor a binary `&&`
makes the transform fail: it returns no output, wherever the instruction stands
in the body and whatever the other instructions are. -/
theorem transform_fails_on_other_condition (pp : Stmt → String) (children : List Stmt)
    (pkt_name opcode : String) (lhs rhs cond trueExpr falseExpr : Stmt)
    (hmem : Stmt.BinaryOperator opcode lhs rhs ∈ children)
    (hrhs : IgnoreParenImpCasts rhs = .ConditionalOperator cond trueExpr falseExpr)
    (hlit : isIntegerLiteral (IgnoreParenImpCasts cond) = false)
    (hand : ∀ l r, IgnoreParenImpCasts cond ≠ .BinaryOperator "&&" l r) :
    transform pp (.CompoundStmt children) pkt_name = none := by
  have hchild := transform_child_eq_none_of_cond pp opcode lhs rhs cond trueExpr falseExpr
    hrhs hlit hand
  simp [transform, transform_loop_eq_none_of_mem pp _ hchild children "" hmem]

/-- C2, at the body `y = 1; x = (a < b) ? 1 : 2;`, whose second instruction has a
comparison as condition. -/
theorem transform_fails_on_other_condition_witness :
    transform printPretty
      (.CompoundStmt
        [.BinaryOperator "=" (.DeclRefExpr "y") (.IntegerLiteral 1),
         .BinaryOperator "=" (.DeclRefExpr "x")
          (.ConditionalOperator
            (.ParenExpr (.BinaryOperator "<" (.ImplicitCastExpr (.DeclRefExpr "a"))
              (.ImplicitCastExpr (.DeclRefExpr "b"))))
            (.IntegerLiteral 1) (.IntegerLiteral 2))]) "pkt" = none :=
  transform_fails_on_other_condition printPretty _ "pkt" "=" (.DeclRefExpr "x") _
    (.ParenExpr (.BinaryOperator "<" (.ImplicitCastExpr (.DeclRefExpr "a"))
      (.ImplicitCastExpr (.DeclRefExpr "b"))))
    (.IntegerLiteral 1) (.IntegerLiteral 2)
    (List.Mem.tail _ (List.Mem.head _)) rfl rfl
    (fun l r h => by simp [IgnoreParenImpCasts] at h)

/-- C3 (as stated, refuted): on the body `count = pkt.flag ? count + 1 : count;`,
whose condition is a bare packet-field read, neither a literal nor an `&&`, the
transform does not succeed. -/
theorem transform_packet_field_condition_fails :
    transform printPretty
      (.CompoundStmt [.BinaryOperator "=" (.DeclRefExpr "count")
        (.ConditionalOperator
          (.ImplicitCastExpr (.MemberExpr (.DeclRefExpr "pkt") false "flag"))
          (.BinaryOperator "+" (.ImplicitCastExpr (.DeclRefExpr "count")) (.IntegerLiteral 1))
          (.ImplicitCastExpr (.DeclRefExpr "count")))]) "pkt" = none := by
  decide

/-- C3 (amended): for every instruction `lhs = cond ? t : f` whose condition is
neither a literal nor a logical AND, the loop body of the transform fails on the
instruction, and so does the transform on every body in which the instruction
stands, whatever precedes and follows it: nothing is emitted. -/
theorem transform_fails_at_other_condition (pp : Stmt → String) (before after : List Stmt)
    (pkt_name : String) (lhs rhs cond trueExpr falseExpr : Stmt)
    (hrhs : IgnoreParenImpCasts rhs = .ConditionalOperator cond trueExpr falseExpr)
    (hlit : isIntegerLiteral (IgnoreParenImpCasts cond) = false)
    (hand : ∀ l r, IgnoreParenImpCasts cond ≠ .BinaryOperator "&&" l r) :
    transform_child pp (.BinaryOperator "=" lhs rhs) = none ∧
    transform pp (.CompoundStmt (before ++ .BinaryOperator "=" lhs rhs :: after)) pkt_name
      = none := by
  have hchild := transform_child_eq_none_of_cond pp "=" lhs rhs cond trueExpr falseExpr
    hrhs hlit hand
  refine ⟨hchild, ?_⟩
  have hmem : Stmt.BinaryOperator "=" lhs rhs ∈ before ++ .BinaryOperator "=" lhs rhs :: after :=
    List.mem_append_right _ (List.mem_cons_self _ _)
  simp [transform, transform_loop_eq_none_of_mem pp _ hchild _ "" hmem]

/-- C3 (amended), at `count = pkt.flag ? count + 1 : count;` between `y = 1;`
and `z = 2;`. -/
theorem transform_fails_at_other_condition_witness :
    transform_child printPretty
      (.BinaryOperator "=" (.DeclRefExpr "count")
        (.ConditionalOperator
          (.ImplicitCastExpr (.MemberExpr (.DeclRefExpr "pkt") false "flag"))
          (.BinaryOperator "+" (.ImplicitCastExpr (.DeclRefExpr "count")) (.IntegerLiteral 1))
          (.ImplicitCastExpr (.DeclRefExpr "count")))) = none ∧
    transform printPretty
      (.CompoundStmt
        ([.BinaryOperator "=" (.DeclRefExpr "y") (.IntegerLiteral 1)] ++
         .BinaryOperator "=" (.DeclRefExpr "count")
          (.ConditionalOperator
            (.ImplicitCastExpr (.MemberExpr (.DeclRefExpr "pkt") false "flag"))
            (.BinaryOperator "+" (.ImplicitCastExpr (.DeclRefExpr "count")) (.IntegerLiteral 1))
            (.ImplicitCastExpr (.DeclRefExpr "count"))) ::
         [.BinaryOperator "=" (.DeclRefExpr "z") (.IntegerLiteral 2)])) "pkt" = none :=
  transform_fails_at_other_condition printPretty
    [.BinaryOperator "=" (.DeclRefExpr "y") (.IntegerLiteral 1)]
    [.BinaryOperator "=" (.DeclRefExpr "z") (.IntegerLiteral 2)] "pkt"
    (.DeclRefExpr "count") _
    (.ImplicitCastExpr (.MemberExpr (.DeclRefExpr "pkt") false "flag"))
    (.BinaryOperator "+" (.ImplicitCastExpr (.DeclRefExpr "count")) (.IntegerLiteral 1))
    (.ImplicitCastExpr (.DeclRefExpr "count"))
    rfl rfl (fun l r h => by simp [IgnoreParenImpCasts] at h)

/-- C4: for an instruction `lhs = (a && b) ? t : f` in which exactly one of `a`,
`b` is an integer literal, the loop body of the transform emits
`lhs = e ? t : f;` with `e` the operand that is not the literal (`b` when the
literal is on the left, `a` when it is on the right) and `lhs`, `t`, `f` as in
the input; the transform of the body made of this instruction emits exactly
that text. -/
theorem transform_and_with_one_literal (pp : Stmt → String) (pkt_name : String)
    (lhs rhs cond trueExpr falseExpr a b : Stmt)
    (hrhs : IgnoreParenImpCasts rhs = .ConditionalOperator cond trueExpr falseExpr)
    (hcond : IgnoreParenImpCasts cond = .BinaryOperator "&&" a b)
    (hone : isIntegerLiteral a ≠ isIntegerLiteral b) :
    transform_child pp (.BinaryOperator "=" lhs rhs)
      = some (pp lhs ++ " = " ++ pp (if isIntegerLiteral a then b else a)
              ++ " ? " ++ pp trueExpr ++ " : " ++ pp falseExpr ++ ";") ∧
    transform pp (.CompoundStmt [.BinaryOperator "=" lhs rhs]) pkt_name
      = some (pp lhs ++ " = " ++ pp (if isIntegerLiteral a then b else a)
              ++ " ? " ++ pp trueExpr ++ " : " ++ pp falseExpr ++ ";", []) := by
  have hboth : (isIntegerLiteral a && isIntegerLiteral b) = false := by
    cases ha : isIntegerLiteral a <;> cases hb : isIntegerLiteral b <;> simp_all
  have hpred : (if isIntegerLiteral a then b
                else if isIntegerLiteral b then a else Stmt.BinaryOperator "&&" a b)
      = (if isIntegerLiteral a then b else a) := by
    cases ha : isIntegerLiteral a <;> cases hb : isIntegerLiteral b <;> simp_all
  have hchild := transform_child_of_and pp "=" lhs rhs cond trueExpr falseExpr a b rfl
    hrhs hcond hboth
  rw [hpred] at hchild
  exact ⟨hchild, transform_singleton pp _ pkt_name _ hchild⟩

/-- C4, at `x = (pkt.flag && 1) ? a : b;`, the literal on the right. -/
theorem transform_and_with_one_literal_witness :
    transform_child printPretty
      (.BinaryOperator "=" (.DeclRefExpr "x")
        (.ConditionalOperator
          (.ParenExpr (.BinaryOperator "&&"
            (.ImplicitCastExpr (.MemberExpr (.DeclRefExpr "pkt") false "flag"))
            (.IntegerLiteral 1)))
          (.ImplicitCastExpr (.DeclRefExpr "a")) (.ImplicitCastExpr (.DeclRefExpr "b"))))
      = some "x = pkt.flag ? a : b;" ∧
    transform printPretty
      (.CompoundStmt [.BinaryOperator "=" (.DeclRefExpr "x")
        (.ConditionalOperator
          (.ParenExpr (.BinaryOperator "&&"
            (.ImplicitCastExpr (.MemberExpr (.DeclRefExpr "pkt") false "flag"))
            (.IntegerLiteral 1)))
          (.ImplicitCastExpr (.DeclRefExpr "a")) (.ImplicitCastExpr (.DeclRefExpr "b")))]) "pkt"
      = some ("x = pkt.flag ? a : b;", []) :=
  transform_and_with_one_literal printPretty "pkt" (.DeclRefExpr "x") _
    (.ParenExpr (.BinaryOperator "&&"
      (.ImplicitCastExpr (.MemberExpr (.DeclRefExpr "pkt") false "flag")) (.IntegerLiteral 1)))
    (.ImplicitCastExpr (.DeclRefExpr "a")) (.ImplicitCastExpr (.DeclRefExpr "b"))
    (.ImplicitCastExpr (.MemberExpr (.DeclRefExpr "pkt") false "flag")) (.IntegerLiteral 1)
    rfl rfl (by decide)

/-- C5 (as stated, refuted): on `x = (0 && pkt.flag) ? 1 : 2;` the transform emits
`x = pkt.flag ? 1 : 2;`, the text of the assignment of `pkt.flag ? 1 : 2` to `x`;
under a valuation with `pkt.flag = 1` the original right-hand side has value 2
and the emitted one has value 1. -/
theorem transform_and_zero_literal_changes_value :
    transform printPretty
        (.CompoundStmt [.BinaryOperator "=" (.DeclRefExpr "x")
          (.ConditionalOperator
            (.ParenExpr (.BinaryOperator "&&" (.IntegerLiteral 0)
              (.ImplicitCastExpr (.MemberExpr (.DeclRefExpr "pkt") false "flag"))))
            (.IntegerLiteral 1) (.IntegerLiteral 2))]) "pkt"
      = some ("x = pkt.flag ? 1 : 2;", []) ∧
    printPretty (.BinaryOperator "=" (.DeclRefExpr "x")
        (.ConditionalOperator
          (.ImplicitCastExpr (.MemberExpr (.DeclRefExpr "pkt") false "flag"))
          (.IntegerLiteral 1) (.IntegerLiteral 2))) ++ ";"
      = "x = pkt.flag ? 1 : 2;" ∧
    eval ⟨fun _ => 0, fun _ _ => 1, fun _ _ => 0⟩
        (.ConditionalOperator
          (.ParenExpr (.BinaryOperator "&&" (.IntegerLiteral 0)
            (.ImplicitCastExpr (.MemberExpr (.DeclRefExpr "pkt") false "flag"))))
          (.IntegerLiteral 1) (.IntegerLiteral 2))
      = some 2 ∧
    eval ⟨fun _ => 0, fun _ _ => 1, fun _ _ => 0⟩
        (.ConditionalOperator
          (.ImplicitCastExpr (.MemberExpr (.DeclRefExpr "pkt") false "flag"))
          (.IntegerLiteral 1) (.IntegerLiteral 2))
      = some 1 := by
  refine ⟨by decide, by decide, by decide, by decide⟩

/-- Parentheses and implicit casts around an expression do not change its value. -/
theorem eval_IgnoreParenImpCasts (ρ : Valuation) :
    ∀ e : Stmt, eval ρ (IgnoreParenImpCasts e) = eval ρ e
  | .ParenExpr e => by
    rw [IgnoreParenImpCasts, eval_IgnoreParenImpCasts ρ e, eval]
  | .ImplicitCastExpr e => by
    rw [IgnoreParenImpCasts, eval_IgnoreParenImpCasts ρ e, eval]
  | .CompoundStmt _ => by simp [IgnoreParenImpCasts]
  | .IfStmt _ _ _ => by simp [IgnoreParenImpCasts]
  | .BinaryOperator _ _ _ => by simp [IgnoreParenImpCasts]
  | .ConditionalOperator _ _ _ => by simp [IgnoreParenImpCasts]
  | .MemberExpr _ _ _ => by simp [IgnoreParenImpCasts]
  | .DeclRefExpr _ => by simp [IgnoreParenImpCasts]
  | .ArraySubscriptExpr _ _ => by simp [IgnoreParenImpCasts]
  | .IntegerLiteral _ => by simp [IgnoreParenImpCasts]
  | .UnaryOperator _ _ => by simp [IgnoreParenImpCasts]
  | .CallExpr _ _ => by simp [IgnoreParenImpCasts]
  | .Other _ _ => by simp [IgnoreParenImpCasts]

/-- The value of a ternary depends on its condition only through the value of
the condition. -/
theorem eval_conditional_congr (ρ : Valuation) (c d trueExpr falseExpr : Stmt)
    (h : eval ρ c = eval ρ d) :
    eval ρ (.ConditionalOperator c trueExpr falseExpr)
      = eval ρ (.ConditionalOperator d trueExpr falseExpr) := by
  simp only [eval, h]

/-- C5 (amended): for every instruction `lhs = (a && b) ? t : f` in which one
operand of the `&&` is an integer literal other than zero and the other operand
is not a literal, the transform emits `lhs = e ? t : f;` with `e` the other
operand, and under every valuation the emitted right-hand side `e ? t : f` has
the same value as the original right-hand side, with C truthiness. -/
theorem transform_and_nonzero_literal_preserves_value (pp : Stmt → String)
    (pkt_name : String) (lhs rhs cond trueExpr falseExpr a b : Stmt)
    (hrhs : IgnoreParenImpCasts rhs = .ConditionalOperator cond trueExpr falseExpr)
    (hcond : IgnoreParenImpCasts cond = .BinaryOperator "&&" a b)
    (hlit : ((∃ v, a = .IntegerLiteral v ∧ v ≠ 0) ∧ isIntegerLiteral b = false) ∨
            ((∃ v, b = .IntegerLiteral v ∧ v ≠ 0) ∧ isIntegerLiteral a = false)) :
    transform pp (.CompoundStmt [.BinaryOperator "=" lhs rhs]) pkt_name
      = some (pp lhs ++ " = " ++ pp (if isIntegerLiteral a then b else a)
              ++ " ? " ++ pp trueExpr ++ " : " ++ pp falseExpr ++ ";", []) ∧
    ∀ ρ : Valuation,
      eval ρ (.ConditionalOperator (if isIntegerLiteral a then b else a) trueExpr falseExpr)
        = eval ρ rhs := by
  have hboth : (isIntegerLiteral a && isIntegerLiteral b) = false := by
    rcases hlit with ⟨_, hb⟩ | ⟨_, ha⟩
    · simp [hb]
    · simp [ha]
  have hpred : (if isIntegerLiteral a then b
                else if isIntegerLiteral b then a else Stmt.BinaryOperator "&&" a b)
      = (if isIntegerLiteral a then b else a) := by
    rcases hlit with ⟨⟨v, rfl, _⟩, _⟩ | ⟨⟨v, rfl, _⟩, ha⟩
    · simp [isIntegerLiteral]
    · simp [isIntegerLiteral, ha]
  have hchild := transform_child_of_and pp "=" lhs rhs cond trueExpr falseExpr a b rfl
    hrhs hcond hboth
  rw [hpred] at hchild
  refine ⟨transform_singleton pp _ pkt_name _ hchild, fun ρ => ?_⟩
  have hnz : (∃ v, a = .IntegerLiteral v ∧ v ≠ 0) ∨
      ((∃ v, b = .IntegerLiteral v ∧ v ≠ 0) ∧ isIntegerLiteral a = false) := by
    rcases hlit with ⟨h, _⟩ | h
    · exact Or.inl h
    · exact Or.inr h
  have hcondval : eval ρ cond = eval ρ (.BinaryOperator "&&" a b) := by
    rw [← hcond, eval_IgnoreParenImpCasts]
  calc eval ρ (.ConditionalOperator (if isIntegerLiteral a then b else a) trueExpr falseExpr)
      = eval ρ (.ConditionalOperator (.BinaryOperator "&&" a b) trueExpr falseExpr) := by
        rw [← hpred]
        exact eval_and_rewrite_of_nonzero ρ a b trueExpr falseExpr hnz
    _ = eval ρ (.ConditionalOperator cond trueExpr falseExpr) :=
        (eval_conditional_congr ρ cond _ trueExpr falseExpr hcondval).symm
    _ = eval ρ (IgnoreParenImpCasts rhs) := by rw [hrhs]
    _ = eval ρ rhs := eval_IgnoreParenImpCasts ρ rhs

/-- C5 (amended), at `x = (1 && pkt.flag) ? a : b;`, the nonzero literal on the
left. -/
theorem transform_and_nonzero_literal_preserves_value_witness :
    transform printPretty
      (.CompoundStmt [.BinaryOperator "=" (.DeclRefExpr "x")
        (.ConditionalOperator
          (.ParenExpr (.BinaryOperator "&&" (.IntegerLiteral 1)
            (.ImplicitCastExpr (.MemberExpr (.DeclRefExpr "pkt") false "flag"))))
          (.ImplicitCastExpr (.DeclRefExpr "a")) (.ImplicitCastExpr (.DeclRefExpr "b")))]) "pkt"
      = some ("x = pkt.flag ? a : b;", []) ∧
    ∀ ρ : Valuation,
      eval ρ (.ConditionalOperator
          (.ImplicitCastExpr (.MemberExpr (.DeclRefExpr "pkt") false "flag"))
          (.ImplicitCastExpr (.DeclRefExpr "a")) (.ImplicitCastExpr (.DeclRefExpr "b")))
        = eval ρ (.ConditionalOperator
          (.ParenExpr (.BinaryOperator "&&" (.IntegerLiteral 1)
            (.ImplicitCastExpr (.MemberExpr (.DeclRefExpr "pkt") false "flag"))))
          (.ImplicitCastExpr (.DeclRefExpr "a")) (.ImplicitCastExpr (.DeclRefExpr "b"))) :=
  transform_and_nonzero_literal_preserves_value printPretty "pkt" (.DeclRefExpr "x") _
    (.ParenExpr (.BinaryOperator "&&" (.IntegerLiteral 1)
      (.ImplicitCastExpr (.MemberExpr (.DeclRefExpr "pkt") false "flag"))))
    (.ImplicitCastExpr (.DeclRefExpr "a")) (.ImplicitCastExpr (.DeclRefExpr "b"))
    (.IntegerLiteral 1) (.ImplicitCastExpr (.MemberExpr (.DeclRefExpr "pkt") false "flag"))
    rfl rfl (Or.inl ⟨⟨1, rfl, by decide⟩, rfl⟩)

/-- C6: for an instruction `lhs = (a && b) ? t : f` in which neither `a` nor `b`
is an integer literal, the loop body of the transform emits
`lhs = a && b ? t : f;`: the same destination, the condition `a && b` without
the parentheses and casts around it, and the same two arms; the transform of the
body made of this instruction emits exactly that text. -/
theorem transform_and_without_literal (pp : Stmt → String) (pkt_name : String)
    (lhs rhs cond trueExpr falseExpr a b : Stmt)
    (hrhs : IgnoreParenImpCasts rhs = .ConditionalOperator cond trueExpr falseExpr)
    (hcond : IgnoreParenImpCasts cond = .BinaryOperator "&&" a b)
    (ha : isIntegerLiteral a = false) (hb : isIntegerLiteral b = false) :
    transform_child pp (.BinaryOperator "=" lhs rhs)
      = some (pp lhs ++ " = " ++ pp (.BinaryOperator "&&" a b)
              ++ " ? " ++ pp trueExpr ++ " : " ++ pp falseExpr ++ ";") ∧
    transform pp (.CompoundStmt [.BinaryOperator "=" lhs rhs]) pkt_name
      = some (pp lhs ++ " = " ++ pp (.BinaryOperator "&&" a b)
              ++ " ? " ++ pp trueExpr ++ " : " ++ pp falseExpr ++ ";", []) := by
  have hchild := transform_child_of_and pp "=" lhs rhs cond trueExpr falseExpr a b rfl
    hrhs hcond (by simp [ha])
  simp only [ha, hb, Bool.false_eq_true, if_false] at hchild
  exact ⟨hchild, transform_singleton pp _ pkt_name _ hchild⟩

/-- C6, at `x = (pkt.p && pkt.q) ? a : b;`. -/
theorem transform_and_without_literal_witness :
    transform_child printPretty
      (.BinaryOperator "=" (.DeclRefExpr "x")
        (.ConditionalOperator
          (.ParenExpr (.BinaryOperator "&&"
            (.ImplicitCastExpr (.MemberExpr (.DeclRefExpr "pkt") false "p"))
            (.ImplicitCastExpr (.MemberExpr (.DeclRefExpr "pkt") false "q"))))
          (.ImplicitCastExpr (.DeclRefExpr "a")) (.ImplicitCastExpr (.DeclRefExpr "b"))))
      = some "x = pkt.p && pkt.q ? a : b;" ∧
    transform printPretty
      (.CompoundStmt [.BinaryOperator "=" (.DeclRefExpr "x")
        (.ConditionalOperator
          (.ParenExpr (.BinaryOperator "&&"
            (.ImplicitCastExpr (.MemberExpr (.DeclRefExpr "pkt") false "p"))
            (.ImplicitCastExpr (.MemberExpr (.DeclRefExpr "pkt") false "q"))))
          (.ImplicitCastExpr (.DeclRefExpr "a")) (.ImplicitCastExpr (.DeclRefExpr "b")))]) "pkt"
      = some ("x = pkt.p && pkt.q ? a : b;", []) :=
  transform_and_without_literal printPretty "pkt" (.DeclRefExpr "x") _
    (.ParenExpr (.BinaryOperator "&&"
      (.ImplicitCastExpr (.MemberExpr (.DeclRefExpr "pkt") false "p"))
      (.ImplicitCastExpr (.MemberExpr (.DeclRefExpr "pkt") false "q"))))
    (.ImplicitCastExpr (.DeclRefExpr "a")) (.ImplicitCastExpr (.DeclRefExpr "b"))
    (.ImplicitCastExpr (.MemberExpr (.DeclRefExpr "pkt") false "p"))
    (.ImplicitCastExpr (.MemberExpr (.DeclRefExpr "pkt") false "q"))
    rfl rfl rfl rfl

/-- C7: when the transform succeeds on a function body, the body is a block,
no declaration is added, and the output is the concatenation, in order, of
exactly one piece per instruction of the block; the piece of an instruction is
the instruction printed verbatim when its right-hand side is not a ternary, and
otherwise an assignment to the same left-hand side (of the true arm, or of a
ternary over the same two arms). -/
theorem transform_preserves_sequence (pp : Stmt → String) (function_body : Stmt)
    (pkt_name out : String) (new_decls : List String)
    (h : transform pp function_body pkt_name = some (out, new_decls)) :
    ∃ (children : List Stmt) (pieces : List String),
      function_body = .CompoundStmt children ∧ new_decls = [] ∧
      out = pieces.foldl (fun acc p => acc ++ p) "" ∧
      List.Forall₂
        (fun child piece =>
          ∃ opcode lhs rhs, child = Stmt.BinaryOperator opcode lhs rhs ∧
            isAssignmentOp opcode = true ∧
            (isConditionalOperator (IgnoreParenImpCasts rhs) = false →
              piece = pp child ++ ";") ∧
            (∀ cond trueExpr falseExpr,
              IgnoreParenImpCasts rhs = .ConditionalOperator cond trueExpr falseExpr →
              piece = pp lhs ++ " = " ++ pp trueExpr ++ ";" ∨
              ∃ pred, piece = pp lhs ++ " = " ++ pp pred ++ " ? " ++ pp trueExpr
                                ++ " : " ++ pp falseExpr ++ ";"))
        children pieces := by
  cases function_body with
  | CompoundStmt children =>
    cases hl : transform_loop pp "" children with
    | none => simp [transform, hl] at h
    | some output =>
      simp only [transform, hl, Option.some.injEq, Prod.mk.injEq] at h
      obtain ⟨pieces, hall, hout⟩ := transform_loop_pieces pp children "" output hl
      refine ⟨children, pieces, rfl, h.2.symm, h.1 ▸ hout, ?_⟩
      exact hall.imp (fun c p hc => transform_child_shape pp c p hc)
  | _ => simp [transform] at h

/-- C7, at the body `y = a + 1; x = 1 ? a : b;`, on which the transform returns
`y = a + 1;x = a;`. -/
theorem transform_preserves_sequence_witness :
    ∃ (children : List Stmt) (pieces : List String),
      Stmt.CompoundStmt
        [.BinaryOperator "=" (.DeclRefExpr "y")
          (.BinaryOperator "+" (.ImplicitCastExpr (.DeclRefExpr "a")) (.IntegerLiteral 1)),
         .BinaryOperator "=" (.DeclRefExpr "x")
          (.ConditionalOperator (.IntegerLiteral 1)
            (.ImplicitCastExpr (.DeclRefExpr "a")) (.ImplicitCastExpr (.DeclRefExpr "b")))]
        = .CompoundStmt children ∧ ([] : List String) = [] ∧
      "y = a + 1;x = a;" = pieces.foldl (fun acc p => acc ++ p) "" ∧
      List.Forall₂
        (fun child piece =>
          ∃ opcode lhs rhs, child = Stmt.BinaryOperator opcode lhs rhs ∧
            isAssignmentOp opcode = true ∧
            (isConditionalOperator (IgnoreParenImpCasts rhs) = false →
              piece = printPretty child ++ ";") ∧
            (∀ cond trueExpr falseExpr,
              IgnoreParenImpCasts rhs = .ConditionalOperator cond trueExpr falseExpr →
              piece = printPretty lhs ++ " = " ++ printPretty trueExpr ++ ";" ∨
              ∃ pred, piece = printPretty lhs ++ " = " ++ printPretty pred ++ " ? "
                                ++ printPretty trueExpr ++ " : " ++ printPretty falseExpr ++ ";"))
        children pieces :=
  transform_preserves_sequence printPretty _ "pkt" "y = a + 1;x = a;" [] (by decide)

end StrengthReductionHandler

/-! ## Theorems: variable-reference extraction -/


/-- The references of a concatenation of node lists. -/
theorem refSet_append (pp : Stmt → String) (sel : VariableTypeSelector) (xs ys : List Stmt) :
    refSet pp sel (xs ++ ys) = refSet pp sel xs ∪ refSet pp sel ys := by
  simp [refSet, List.filterMap_append, List.toFinset_append]

/-- A node that stands for no reference adds nothing. -/
theorem refSet_cons_of_none (pp : Stmt → String) (sel : VariableTypeSelector) (n : Stmt)
    (xs : List Stmt) (h : refOf pp sel n = none) :
    refSet pp sel (n :: xs) = refSet pp sel xs := by
  simp [refSet, List.filterMap_cons, h]

/-- Membership in the references of a node list. -/
theorem mem_refSet (pp : Stmt → String) (sel : VariableTypeSelector) (xs : List Stmt)
    (x : String) : x ∈ refSet pp sel xs ↔ ∃ n ∈ xs, refOf pp sel n = some x := by
  simp [refSet]

mutual
/-- What `gen_var_list` computes: it throws exactly when the scan reaches a node
outside the restricted grammar, and otherwise returns the references of the
nodes the scan reaches. -/
theorem gen_var_list_eq (pp : Stmt → String) (sel : VariableTypeSelector) :
    ∀ s : Stmt, gen_var_list pp sel s =
      if (visited s).any outsideGrammar = true then none
      else some (refSet pp sel (visited s))
  | .CompoundStmt body => by
    simp only [gen_var_list, visited, List.any_cons, outsideGrammar, Bool.false_or,
      gen_var_list_loop_eq pp sel body ∅]
    rw [refSet_cons_of_none pp sel (.CompoundStmt body) _ rfl]
    simp
  | .IfStmt c t (some e) => by
    simp only [gen_var_list, visited, List.any_cons, List.any_append, outsideGrammar,
      Bool.false_or, gen_var_list_eq pp sel c, gen_var_list_eq pp sel t,
      gen_var_list_eq pp sel e]
    rw [refSet_cons_of_none pp sel (.IfStmt c t (some e)) _ rfl]
    cases (visited c).any outsideGrammar <;> cases (visited t).any outsideGrammar <;>
      cases (visited e).any outsideGrammar <;> simp [refSet_append]
  | .IfStmt c t none => by
    simp only [gen_var_list, visited, List.any_cons, List.any_append, outsideGrammar,
      Bool.false_or, gen_var_list_eq pp sel c, gen_var_list_eq pp sel t]
    rw [refSet_cons_of_none pp sel (.IfStmt c t none) _ rfl]
    cases (visited c).any outsideGrammar <;> cases (visited t).any outsideGrammar <;>
      simp [refSet_append]
  | .BinaryOperator op l r => by
    simp only [gen_var_list, visited, List.any_cons, List.any_append, outsideGrammar,
      Bool.false_or, gen_var_list_eq pp sel l, gen_var_list_eq pp sel r]
    rw [refSet_cons_of_none pp sel (.BinaryOperator op l r) _ rfl]
    cases (visited l).any outsideGrammar <;> cases (visited r).any outsideGrammar <;>
      simp [refSet_append]
  | .ConditionalOperator c t f => by
    simp only [gen_var_list, visited, List.any_cons, List.any_append, outsideGrammar,
      Bool.false_or, gen_var_list_eq pp sel c, gen_var_list_eq pp sel t,
      gen_var_list_eq pp sel f]
    rw [refSet_cons_of_none pp sel (.ConditionalOperator c t f) _ rfl]
    cases (visited c).any outsideGrammar <;> cases (visited t).any outsideGrammar <;>
      cases (visited f).any outsideGrammar <;> simp [refSet_append]
  | .MemberExpr b a m => by
    cases hp : sel.PACKET <;> simp [gen_var_list, visited, outsideGrammar, refSet, refOf, hp]
  | .DeclRefExpr n => by
    cases hp : sel.STATE <;> simp [gen_var_list, visited, outsideGrammar, refSet, refOf, hp]
  | .ArraySubscriptExpr b i => by
    cases hp : sel.STATE <;> simp [gen_var_list, visited, outsideGrammar, refSet, refOf, hp]
  | .IntegerLiteral v => by
    simp [gen_var_list, visited, outsideGrammar, refSet, refOf]
  | .ParenExpr e => by
    simp only [gen_var_list, visited, List.any_cons, outsideGrammar, Bool.false_or,
      gen_var_list_eq pp sel e]
    rw [refSet_cons_of_none pp sel (.ParenExpr e) _ rfl]
  | .UnaryOperator op e => by
    simp only [gen_var_list, visited, List.any_cons, outsideGrammar,
      gen_var_list_eq pp sel e]
    rw [refSet_cons_of_none pp sel (.UnaryOperator op e) _ rfl]
    by_cases h1 : isArithmeticOp op = true
    · by_cases h2 : op = "!"
      · subst h2
        simp [isArithmeticOp]
      · simp [h1, h2]
    · simp [h1]
  | .ImplicitCastExpr e => by
    simp only [gen_var_list, visited, List.any_cons, outsideGrammar, Bool.false_or,
      gen_var_list_eq pp sel e]
    rw [refSet_cons_of_none pp sel (.ImplicitCastExpr e) _ rfl]
  | .CallExpr f args => by
    simp only [gen_var_list, visited, List.any_cons, outsideGrammar, Bool.false_or,
      gen_var_list_loop_eq pp sel args ∅]
    rw [refSet_cons_of_none pp sel (.CallExpr f args) _ rfl]
    simp
  | .Other cls children => by
    simp [gen_var_list, visited, outsideGrammar]
/-- What the loops of `gen_var_list` compute, from an accumulated set `ret`. -/
theorem gen_var_list_loop_eq (pp : Stmt → String) (sel : VariableTypeSelector) :
    ∀ (children : List Stmt) (ret : Finset String),
      gen_var_list_loop pp sel ret children =
        if (visitedList children).any outsideGrammar = true then none
        else some (ret ∪ refSet pp sel (visitedList children))
  | [], ret => by
    simp [gen_var_list_loop, visitedList, refSet]
  | child :: rest, ret => by
    simp only [gen_var_list_loop, visitedList, List.any_append,
      gen_var_list_eq pp sel child]
    cases (visited child).any outsideGrammar
    · simp only [Bool.false_eq_true, if_false, Bool.false_or,
        gen_var_list_loop_eq pp sel rest]
      cases (visitedList rest).any outsideGrammar <;>
        simp [refSet_append, Finset.union_assoc]
    · simp
end


mutual
/-- Every node the scan reaches is a node of the tree. -/
theorem visited_subset_subterms : ∀ (s n : Stmt), n ∈ visited s → n ∈ subterms s
  | .CompoundStmt body, n, h => by
    simp only [visited, subterms, List.mem_cons] at h ⊢
    exact h.imp id (visitedList_subset_subtermsList body n)
  | .IfStmt c t (some e), n, h => by
    simp only [visited, subterms, List.mem_cons, List.mem_append] at h ⊢
    rcases h with h | (h | h) | h
    · exact Or.inl h
    · exact Or.inr (Or.inl (Or.inl (visited_subset_subterms c n h)))
    · exact Or.inr (Or.inl (Or.inr (visited_subset_subterms t n h)))
    · exact Or.inr (Or.inr (visited_subset_subterms e n h))
  | .IfStmt c t none, n, h => by
    simp only [visited, subterms, List.mem_cons, List.mem_append] at h ⊢
    rcases h with h | h | h
    · exact Or.inl h
    · exact Or.inr (Or.inl (visited_subset_subterms c n h))
    · exact Or.inr (Or.inr (visited_subset_subterms t n h))
  | .BinaryOperator op l r, n, h => by
    simp only [visited, subterms, List.mem_cons, List.mem_append] at h ⊢
    rcases h with h | h | h
    · exact Or.inl h
    · exact Or.inr (Or.inl (visited_subset_subterms l n h))
    · exact Or.inr (Or.inr (visited_subset_subterms r n h))
  | .ConditionalOperator c t f, n, h => by
    simp only [visited, subterms, List.mem_cons, List.mem_append] at h ⊢
    rcases h with h | (h | h) | h
    · exact Or.inl h
    · exact Or.inr (Or.inl (Or.inl (visited_subset_subterms c n h)))
    · exact Or.inr (Or.inl (Or.inr (visited_subset_subterms t n h)))
    · exact Or.inr (Or.inr (visited_subset_subterms f n h))
  | .MemberExpr b a m, n, h => by
    simp only [visited, List.mem_singleton] at h
    simp [subterms, h]
  | .DeclRefExpr x, n, h => by
    simpa only [visited, subterms] using h
  | .ArraySubscriptExpr b i, n, h => by
    simp only [visited, List.mem_singleton] at h
    simp [subterms, h]
  | .IntegerLiteral v, n, h => by
    simpa only [visited, subterms] using h
  | .ParenExpr e, n, h => by
    simp only [visited, subterms, List.mem_cons] at h ⊢
    exact h.imp id (visited_subset_subterms e n)
  | .UnaryOperator op e, n, h => by
    simp only [visited, subterms, List.mem_cons] at h ⊢
    exact h.imp id (visited_subset_subterms e n)
  | .ImplicitCastExpr e, n, h => by
    simp only [visited, subterms, List.mem_cons] at h ⊢
    exact h.imp id (visited_subset_subterms e n)
  | .CallExpr f args, n, h => by
    simp only [visited, subterms, List.mem_cons, List.mem_append] at h ⊢
    exact h.imp id (fun h => Or.inr (visitedList_subset_subtermsList args n h))
  | .Other cls children, n, h => by
    simp only [visited, List.mem_singleton] at h
    simp [subterms, h]
/-- Every node the scan reaches in a list of trees is a node of one of them. -/
theorem visitedList_subset_subtermsList :
    ∀ (l : List Stmt) (n : Stmt), n ∈ visitedList l → n ∈ subtermsList l
  | [], n, h => by simp [visitedList] at h
  | s :: rest, n, h => by
    simp only [visitedList, subtermsList, List.mem_append] at h ⊢
    exact h.imp (visited_subset_subterms s n) (visitedList_subset_subtermsList rest n)
end

/-- C8 (as stated, refuted): on `x = arr[pkt.idx];`, a statement of the
restricted grammar, with only PACKET selected, `gen_var_list` returns the empty
set, although the packet-field read `pkt.idx` occurs in the statement, inside
the array index: the result is not the set of all packet-field reads at any
depth, which is the singleton of `pkt.idx`. -/
theorem gen_var_list_misses_read_in_index :
    (subterms (.BinaryOperator "=" (.DeclRefExpr "x")
        (.ImplicitCastExpr (.ArraySubscriptExpr (.ImplicitCastExpr (.DeclRefExpr "arr"))
          (.ImplicitCastExpr (.MemberExpr (.DeclRefExpr "pkt") false "idx")))))).any
        outsideGrammar = false ∧
    gen_var_list printPretty ⟨true, false, false⟩
        (.BinaryOperator "=" (.DeclRefExpr "x")
          (.ImplicitCastExpr (.ArraySubscriptExpr (.ImplicitCastExpr (.DeclRefExpr "arr"))
            (.ImplicitCastExpr (.MemberExpr (.DeclRefExpr "pkt") false "idx")))))
      = some ∅ ∧
    refSet printPretty ⟨true, false, false⟩
        (subterms (.BinaryOperator "=" (.DeclRefExpr "x")
          (.ImplicitCastExpr (.ArraySubscriptExpr (.ImplicitCastExpr (.DeclRefExpr "arr"))
            (.ImplicitCastExpr (.MemberExpr (.DeclRefExpr "pkt") false "idx"))))))
      = {"pkt.idx"} ∧
    gen_var_list printPretty ⟨true, false, false⟩
        (.BinaryOperator "=" (.DeclRefExpr "x")
          (.ImplicitCastExpr (.ArraySubscriptExpr (.ImplicitCastExpr (.DeclRefExpr "arr"))
            (.ImplicitCastExpr (.MemberExpr (.DeclRefExpr "pkt") false "idx")))))
      ≠ some (refSet printPretty ⟨true, false, false⟩
          (subterms (.BinaryOperator "=" (.DeclRefExpr "x")
            (.ImplicitCastExpr (.ArraySubscriptExpr (.ImplicitCastExpr (.DeclRefExpr "arr"))
              (.ImplicitCastExpr (.MemberExpr (.DeclRefExpr "pkt") false "idx"))))))) := by
  refine ⟨by decide, by decide, by decide, by decide⟩

/-- C8 (amended): for every statement of the restricted grammar and every
selector, `gen_var_list` returns exactly the set of printed forms of the member
expressions (when PACKET is selected) and of the variable references and array
subscripts (when STATE is selected) that stand at the positions the scan
reaches; the scan descends through blocks, ifs, binary operators, ternaries,
parentheses, logical negations, implicit casts and call arguments and stops at
member expressions, variable references and array subscripts, so that each of
those is collected whole and nothing inside it is collected separately. -/
theorem gen_var_list_exact_on_visited (pp : Stmt → String) (sel : VariableTypeSelector)
    (s : Stmt) (hgrammar : (subterms s).any outsideGrammar = false) :
    gen_var_list pp sel s = some (refSet pp sel (visited s)) ∧
    ∀ x : String, x ∈ refSet pp sel (visited s) ↔
      ∃ n ∈ visited s,
        (sel.PACKET = true ∧ (∃ b a m, n = .MemberExpr b a m) ∧ x = pp n) ∨
        (sel.STATE = true ∧
          ((∃ v, n = .DeclRefExpr v) ∨ ∃ b i, n = .ArraySubscriptExpr b i) ∧ x = pp n) := by
  have hvis : ¬ (visited s).any outsideGrammar = true := by
    intro h
    obtain ⟨n, hn, hbad⟩ := List.any_eq_true.mp h
    have : (subterms s).any outsideGrammar = true :=
      List.any_eq_true.mpr ⟨n, visited_subset_subterms s n hn, hbad⟩
    rw [hgrammar] at this
    exact Bool.false_ne_true this
  refine ⟨by rw [gen_var_list_eq, if_neg hvis], fun x => ?_⟩
  rw [mem_refSet]
  constructor
  · rintro ⟨n, hn, hx⟩
    refine ⟨n, hn, ?_⟩
    cases n with
    | MemberExpr b a m =>
      by_cases hsel : sel.PACKET = true
      · simp only [refOf, hsel, if_true, Option.some.injEq] at hx
        exact Or.inl ⟨hsel, ⟨b, a, m, rfl⟩, hx.symm⟩
      · simp [refOf, hsel] at hx
    | DeclRefExpr v =>
      by_cases hsel : sel.STATE = true
      · simp only [refOf, hsel, if_true, Option.some.injEq] at hx
        exact Or.inr ⟨hsel, Or.inl ⟨v, rfl⟩, hx.symm⟩
      · simp [refOf, hsel] at hx
    | ArraySubscriptExpr b i =>
      by_cases hsel : sel.STATE = true
      · simp only [refOf, hsel, if_true, Option.some.injEq] at hx
        exact Or.inr ⟨hsel, Or.inr ⟨b, i, rfl⟩, hx.symm⟩
      · simp [refOf, hsel] at hx
    | _ => simp [refOf] at hx
  · rintro ⟨n, hn, h⟩
    refine ⟨n, hn, ?_⟩
    rcases h with ⟨hsel, ⟨b, a, m, rfl⟩, rfl⟩ | ⟨hsel, ⟨v, rfl⟩ | ⟨b, i, rfl⟩, rfl⟩ <;>
      simp [refOf, hsel]

/-- C8 (amended), at `x = arr[pkt.idx] + pkt.len;` with PACKET and STATE
selected. -/
theorem gen_var_list_exact_on_visited_witness :
    gen_var_list printPretty ⟨true, true, false⟩
        (.BinaryOperator "=" (.DeclRefExpr "x")
          (.BinaryOperator "+"
            (.ImplicitCastExpr (.ArraySubscriptExpr (.ImplicitCastExpr (.DeclRefExpr "arr"))
              (.ImplicitCastExpr (.MemberExpr (.DeclRefExpr "pkt") false "idx"))))
            (.ImplicitCastExpr (.MemberExpr (.DeclRefExpr "pkt") false "len"))))
      = some (refSet printPretty ⟨true, true, false⟩
          (visited (.BinaryOperator "=" (.DeclRefExpr "x")
            (.BinaryOperator "+"
              (.ImplicitCastExpr (.ArraySubscriptExpr (.ImplicitCastExpr (.DeclRefExpr "arr"))
                (.ImplicitCastExpr (.MemberExpr (.DeclRefExpr "pkt") false "idx"))))
              (.ImplicitCastExpr (.MemberExpr (.DeclRefExpr "pkt") false "len")))))) :=
  (gen_var_list_exact_on_visited printPretty ⟨true, true, false⟩ _ (by decide)).1

/-- C9 (as stated, refuted): the tree of `x = arr[i++];` contains a node
outside the restricted grammar, the increment inside the array index, and yet
`gen_var_list` returns a set for every selector. -/
theorem gen_var_list_returns_despite_bad_index :
    (subterms (.BinaryOperator "=" (.DeclRefExpr "x")
        (.ImplicitCastExpr (.ArraySubscriptExpr (.ImplicitCastExpr (.DeclRefExpr "arr"))
          (.UnaryOperator "++" (.DeclRefExpr "i")))))).any outsideGrammar = true ∧
    ∀ sel : VariableTypeSelector,
      gen_var_list printPretty sel
          (.BinaryOperator "=" (.DeclRefExpr "x")
            (.ImplicitCastExpr (.ArraySubscriptExpr (.ImplicitCastExpr (.DeclRefExpr "arr"))
              (.UnaryOperator "++" (.DeclRefExpr "i")))))
        ≠ none := by
  refine ⟨by decide, fun sel => ?_⟩
  rw [gen_var_list_eq]
  simp [visited, outsideGrammar]

/-- C9 (amended): for every tree that contains a node outside the restricted
grammar at a position the scan reaches (through blocks, ifs, binary operators,
ternaries, parentheses, unary operators, implicit casts and call arguments, not
inside a member expression, a variable reference, an array subscript or the
callee of a call), `gen_var_list` fails for every selector. -/
theorem gen_var_list_fails_on_visited_bad_node (pp : Stmt → String) (s : Stmt)
    (hbad : ∃ n ∈ visited s, outsideGrammar n = true) :
    ∀ sel : VariableTypeSelector, gen_var_list pp sel s = none := by
  intro sel
  rw [gen_var_list_eq, if_pos (List.any_eq_true.mpr hbad)]

/-- C9 (amended), at the block `x = 1; while (x) ...` whose second statement is
a loop, with every category selected. -/
theorem gen_var_list_fails_on_visited_bad_node_witness :
    gen_var_list printPretty ⟨true, true, true⟩
      (.CompoundStmt
        [.BinaryOperator "=" (.DeclRefExpr "x") (.IntegerLiteral 1),
         .Other "WhileStmt" [.ImplicitCastExpr (.DeclRefExpr "x"), .CompoundStmt []]])
      = none :=
  gen_var_list_fails_on_visited_bad_node printPretty _
    ⟨.Other "WhileStmt" [.ImplicitCastExpr (.DeclRefExpr "x"), .CompoundStmt []],
      by simp [visited, visitedList], rfl⟩ ⟨true, true, true⟩

/-! ## Theorems: identifier census -/


/-- Inserting the elements of a list one by one adds the set of the list. -/
theorem foldl_insert_eq_union {α : Type} (f : α → String) :
    ∀ (l : List α) (ids : Finset String),
      l.foldl (fun acc a => insert (f a) acc) ids = ids ∪ (l.map f).toFinset
  | [], ids => by simp
  | a :: rest, ids => by
    rw [List.foldl_cons, foldl_insert_eq_union f rest]
    ext x
    simp only [Finset.mem_union, Finset.mem_insert, List.map_cons, List.toFinset_cons]
    tauto

/-- The names of a list of declarations that starts with `d`. -/
theorem selectedNames_cons (sel : VariableTypeSelector) (d : Decl) (rest : List Decl) :
    selectedNames sel (d :: rest) = selectedNames sel [d] ∪ selectedNames sel rest := by
  unfold selectedNames
  simp only [List.map_cons, List.flatten_cons, List.toFinset_append, List.map_nil,
    List.flatten_nil, List.append_nil]
  ext x
  cases sel.PACKET <;> cases sel.FUNCTION_PARAMETER <;> cases sel.STATE <;>
    simp only [if_true, if_false, Bool.false_eq_true, Finset.mem_union,
      Finset.not_mem_empty] <;> tauto

/-- The loop body of the census on a classifiable declaration adds the names the
declaration contributes to the selected categories. -/
theorem identifier_census_child_eq (sel : VariableTypeSelector) (ids : Finset String)
    (d : Decl) (hd : unclassifiable d = false) :
    identifier_census_child sel ids d = some (ids ∪ selectedNames sel [d]) := by
  cases d with
  | RecordDecl name fields =>
    cases hp : sel.PACKET <;> cases hf : sel.FUNCTION_PARAMETER <;> cases hs : sel.STATE <;>
      simp [identifier_census_child, selectedNames, recordFieldNames, functionNames,
        stateNames, hp, hf, hs, foldl_insert_eq_union (fun a : String => a)]
  | FunctionDecl rt name params body =>
    cases hp : sel.PACKET <;> cases hf : sel.FUNCTION_PARAMETER <;> cases hs : sel.STATE <;>
      simp [identifier_census_child, selectedNames, recordFieldNames, functionNames,
        stateNames, hp, hf, hs, foldl_insert_eq_union (fun p : ParmVarDecl => p.name)]
  | VarDecl name =>
    cases hp : sel.PACKET <;> cases hf : sel.FUNCTION_PARAMETER <;> cases hs : sel.STATE <;>
      simp [identifier_census_child, selectedNames, recordFieldNames, functionNames,
        stateNames, hp, hf, hs] <;> (ext x; simp [or_comm])
  | ValueDecl kind name =>
    cases hp : sel.PACKET <;> cases hf : sel.FUNCTION_PARAMETER <;> cases hs : sel.STATE <;>
      simp [identifier_census_child, selectedNames, recordFieldNames, functionNames,
        stateNames, hp, hf, hs] <;> (ext x; simp [or_comm])
  | TypedefDecl name =>
    cases hp : sel.PACKET <;> cases hf : sel.FUNCTION_PARAMETER <;> cases hs : sel.STATE <;>
      simp [identifier_census_child, selectedNames, recordFieldNames, functionNames,
        stateNames, hp, hf, hs]
  | Other kind => simp [unclassifiable] at hd

/-- The loop of the census over classifiable declarations adds the names of the
selected categories to the accumulated set. -/
theorem identifier_census_loop_eq (sel : VariableTypeSelector) :
    ∀ (decls : List Decl) (ids : Finset String),
      (∀ d ∈ decls, unclassifiable d = false) →
      identifier_census_loop sel ids decls = some (ids ∪ selectedNames sel decls)
  | [], ids, _ => by
    cases hp : sel.PACKET <;> cases hf : sel.FUNCTION_PARAMETER <;> cases hs : sel.STATE <;>
      simp [identifier_census_loop, selectedNames, hp, hf, hs]
  | d :: rest, ids, h => by
    have hd := h d (List.mem_cons_self _ _)
    have hrest : ∀ e ∈ rest, unclassifiable e = false :=
      fun e he => h e (List.mem_cons_of_mem _ he)
    simp only [identifier_census_loop, identifier_census_child_eq sel ids d hd]
    rw [identifier_census_loop_eq sel rest _ hrest, selectedNames_cons sel d rest,
      Finset.union_assoc]


/-- Membership in the field names of the records of a declaration list. -/
theorem mem_recordFieldNames (decls : List Decl) (x : String) :
    x ∈ (decls.map recordFieldNames).flatten.toFinset ↔
      ∃ name fields, Decl.RecordDecl name fields ∈ decls ∧ x ∈ fields := by
  simp only [List.mem_toFinset, List.mem_flatten, List.mem_map]
  constructor
  · rintro ⟨l, ⟨d, hd, rfl⟩, hx⟩
    cases d with
    | RecordDecl name fields => exact ⟨name, fields, hd, hx⟩
    | _ => simp [recordFieldNames] at hx
  · rintro ⟨name, fields, hd, hx⟩
    exact ⟨_, ⟨_, hd, rfl⟩, hx⟩

/-- Membership in the names and parameter names of the functions of a
declaration list. -/
theorem mem_functionNames (decls : List Decl) (x : String) :
    x ∈ (decls.map functionNames).flatten.toFinset ↔
      ∃ rt name params body, Decl.FunctionDecl rt name params body ∈ decls ∧
        (x = name ∨ ∃ p ∈ params, p.name = x) := by
  simp only [List.mem_toFinset, List.mem_flatten, List.mem_map]
  constructor
  · rintro ⟨l, ⟨d, hd, rfl⟩, hx⟩
    cases d with
    | FunctionDecl rt name params body =>
      refine ⟨rt, name, params, body, hd, ?_⟩
      simpa [functionNames] using hx
    | _ => simp [functionNames] at hx
  · rintro ⟨rt, name, params, body, hd, hx⟩
    refine ⟨_, ⟨_, hd, rfl⟩, ?_⟩
    simpa [functionNames] using hx

/-- Membership in the names of the value declarations of a declaration list
that are neither functions nor records. -/
theorem mem_stateNames (decls : List Decl) (x : String) :
    x ∈ (decls.map stateNames).flatten.toFinset ↔
      (Decl.VarDecl x ∈ decls ∨ ∃ kind, Decl.ValueDecl kind x ∈ decls) := by
  simp only [List.mem_toFinset, List.mem_flatten, List.mem_map]
  constructor
  · rintro ⟨l, ⟨d, hd, rfl⟩, hx⟩
    cases d with
    | VarDecl name =>
      simp only [stateNames, List.mem_singleton] at hx
      exact Or.inl (hx ▸ hd)
    | ValueDecl kind name =>
      simp only [stateNames, List.mem_singleton] at hx
      exact Or.inr ⟨kind, hx ▸ hd⟩
    | _ => simp [stateNames] at hx
  · rintro (hd | ⟨kind, hd⟩)
    · exact ⟨_, ⟨_, hd, rfl⟩, by simp [stateNames]⟩
    · exact ⟨_, ⟨_, hd, rfl⟩, by simp [stateNames]⟩

/-- C10: for every program whose top-level declarations are all records,
functions, value declarations or typedefs, and every selector, the census
returns a set, and a name is in it exactly when it is a field name of a record
declaration and PACKET is selected, or the name or a parameter name of a
function declaration and FUNCTION_PARAMETER is selected, or the name of a value
declaration that is neither function nor record and STATE is selected; with no
category selected the set is empty. -/
theorem identifier_census_exact (decl : TranslationUnitDecl) (sel : VariableTypeSelector)
    (hknown : ∀ d ∈ decl.decls, unclassifiable d = false) :
    ∃ identifiers : Finset String,
      identifier_census decl sel = some identifiers ∧
      identifiers = selectedNames sel decl.decls ∧
      (∀ x : String, x ∈ identifiers ↔
        (sel.PACKET = true ∧
          ∃ name fields, Decl.RecordDecl name fields ∈ decl.decls ∧ x ∈ fields) ∨
        (sel.FUNCTION_PARAMETER = true ∧
          ∃ rt name params body, Decl.FunctionDecl rt name params body ∈ decl.decls ∧
            (x = name ∨ ∃ p ∈ params, p.name = x)) ∨
        (sel.STATE = true ∧
          (Decl.VarDecl x ∈ decl.decls ∨ ∃ kind, Decl.ValueDecl kind x ∈ decl.decls))) ∧
      (sel.PACKET = false → sel.FUNCTION_PARAMETER = false → sel.STATE = false →
        identifiers = ∅) := by
  refine ⟨selectedNames sel decl.decls, ?_, rfl, ?_, ?_⟩
  · rw [identifier_census, identifier_census_loop_eq sel decl.decls ∅ hknown,
      Finset.empty_union]
  · intro x
    unfold selectedNames
    rw [Finset.mem_union, Finset.mem_union, or_assoc]
    refine or_congr ?_ (or_congr ?_ ?_)
    · cases sel.PACKET
      · simp
      · simp only [if_true, true_and, mem_recordFieldNames]
    · cases sel.FUNCTION_PARAMETER
      · simp
      · simp only [if_true, true_and, mem_functionNames]
    · cases sel.STATE
      · simp
      · simp only [if_true, true_and, mem_stateNames]
  · intro hp hf hs
    simp [selectedNames, hp, hf, hs]

/-- C10, at a program with a typedef, a state variable, the packet record, a
helper function and the packet function, with PACKET and STATE selected. -/
theorem identifier_census_exact_witness :
    ∃ identifiers : Finset String,
      identifier_census
          ⟨[.TypedefDecl "u32", .VarDecl "count", .RecordDecl "Packet" ["flag", "len"],
            .FunctionDecl "int" "hash" [⟨"key", "int"⟩] none,
            .FunctionDecl "void" "func" [⟨"pkt", "struct Packet"⟩]
              (some (.CompoundStmt []))]⟩
          ⟨true, true, false⟩ = some identifiers ∧
      ∀ x : String, x ∈ identifiers ↔ x = "flag" ∨ x = "len" ∨ x = "count" := by
  obtain ⟨identifiers, hcensus, hnames, _, _⟩ :=
    identifier_census_exact
      ⟨[.TypedefDecl "u32", .VarDecl "count", .RecordDecl "Packet" ["flag", "len"],
        .FunctionDecl "int" "hash" [⟨"key", "int"⟩] none,
        .FunctionDecl "void" "func" [⟨"pkt", "struct Packet"⟩] (some (.CompoundStmt []))]⟩
      ⟨true, true, false⟩ (by decide)
  refine ⟨identifiers, hcensus, fun x => ?_⟩
  rw [hnames]
  simp [selectedNames, recordFieldNames, functionNames, stateNames, or_assoc]

/-! ## Theorems: failure of the identifier census -/

/-- The loop body of the census fails exactly on an unclassifiable declaration,
whatever the selector and the accumulated set. -/
theorem identifier_census_child_eq_none_iff (sel : VariableTypeSelector)
    (ids : Finset String) (d : Decl) :
    identifier_census_child sel ids d = none ↔ unclassifiable d = true := by
  cases d <;> simp [identifier_census_child, unclassifiable] <;> split <;> simp

/-- The loop of the census over a list with an unclassifiable declaration fails. -/
theorem identifier_census_loop_eq_none (sel : VariableTypeSelector) :
    ∀ (decls : List Decl) (ids : Finset String),
      (∃ d ∈ decls, unclassifiable d = true) →
      identifier_census_loop sel ids decls = none
  | [], _, h => by simp at h
  | d :: rest, ids, h => by
    cases hd : identifier_census_child sel ids d with
    | none => simp [identifier_census_loop, hd]
    | some ids' =>
      simp only [identifier_census_loop, hd]
      apply identifier_census_loop_eq_none sel rest ids'
      obtain ⟨e, he, hbad⟩ := h
      rcases List.mem_cons.mp he with rfl | he
      · have := (identifier_census_child_eq_none_iff sel ids e).mpr hbad
        rw [hd] at this
        exact absurd this (by simp)
      · exact ⟨e, he, hbad⟩

/-- C11: the census fails if and only if the program contains a top-level
declaration that is none of record, function, value declaration or typedef;
whether it fails is the same for any two selectors, in particular for the
selector with every category deselected; and the loop body leaves the
identifier set as it is on a typedef, under every selector. -/
theorem identifier_census_fails_iff (decl : TranslationUnitDecl) (sel : VariableTypeSelector) :
    (identifier_census decl sel = none ↔ ∃ d ∈ decl.decls, unclassifiable d = true) ∧
    (∀ sel2 : VariableTypeSelector,
      identifier_census decl sel = none ↔ identifier_census decl sel2 = none) ∧
    (identifier_census decl sel = none ↔ identifier_census decl ⟨false, false, false⟩ = none) ∧
    (∀ (ids : Finset String) (name : String),
      identifier_census_child sel ids (.TypedefDecl name) = some ids) := by
  have key : ∀ s : VariableTypeSelector,
      identifier_census decl s = none ↔ ∃ d ∈ decl.decls, unclassifiable d = true := by
    intro s
    constructor
    · intro h
      by_contra hno
      have hall : ∀ d ∈ decl.decls, unclassifiable d = false := by
        intro d hd
        cases hu : unclassifiable d with
        | false => rfl
        | true => exact absurd ⟨d, hd, hu⟩ hno
      rw [identifier_census, identifier_census_loop_eq s decl.decls ∅ hall] at h
      exact absurd h (by simp)
    · intro h
      exact identifier_census_loop_eq_none s decl.decls ∅ h
  refine ⟨key sel, fun sel2 => (key sel).trans (key sel2).symm,
    (key sel).trans (key _).symm, fun ids name => rfl⟩

/-! ## Theorems: the flattening loop of the driver -/

/-- What the flattening loop returns, when it returns within the fuel: the
iterate after `k + 1` applications of the pass for the least `k` whose next
application changes nothing. -/
theorem flatten_loop_eq_some (F : String → String) :
    ∀ (fuel : Nat) (input out : String), flatten_loop F fuel input = some out →
      ∃ k, k < fuel ∧ out = F^[k + 1] input ∧ F^[k + 1] input = F^[k] input ∧
        ∀ j, j < k → F^[j + 1] input ≠ F^[j] input
  | 0, _, _, h => by simp [flatten_loop] at h
  | fuel + 1, input, out, h => by
    unfold flatten_loop at h
    by_cases hfix : F input = input
    · rw [if_pos hfix] at h
      refine ⟨0, Nat.succ_pos _, ?_, ?_, ?_⟩
      · simpa using (Option.some.inj h).symm
      · simpa using hfix
      · intro j hj
        exact absurd hj (Nat.not_lt_zero _)
    · rw [if_neg hfix] at h
      obtain ⟨k, hk, hout, hstop, hmin⟩ := flatten_loop_eq_some F fuel (F input) out h
      refine ⟨k + 1, Nat.succ_lt_succ hk, ?_, ?_, ?_⟩
      · simpa [Function.iterate_succ_apply] using hout
      · simpa [Function.iterate_succ_apply] using hstop
      · intro j hj
        cases j with
        | zero => simpa using hfix
        | succ j =>
          have := hmin j (Nat.lt_of_succ_lt_succ hj)
          simpa [Function.iterate_succ_apply] using this

/-- C12: whenever the flattening loop exits, with whatever number of
applications of the pass `F`, the text it leaves in `new_output` is a fixed
point of the pass, `F out = out`, and it is the first iterate that repeats its
predecessor: `out = F^(k+1)(input)` with `F^(k+1)(input) = F^k(input)` and no
earlier iterate equal to its predecessor. -/
theorem flatten_loop_exit_is_first_fixed_point (F : String → String) (fuel : Nat)
    (input out : String) (hexit : flatten_loop F fuel input = some out) :
    F out = out ∧
    ∃ k, out = F^[k + 1] input ∧ F^[k + 1] input = F^[k] input ∧
      ∀ j, j < k → F^[j + 1] input ≠ F^[j] input := by
  obtain ⟨k, _, hout, hstop, hmin⟩ := flatten_loop_eq_some F fuel input out hexit
  refine ⟨?_, k, hout, hstop, hmin⟩
  rw [hout]
  calc F (F^[k + 1] input) = F (F^[k] input) := by rw [hstop]
    _ = F^[k + 1] input := (Function.iterate_succ_apply' F k input).symm

/-- C12, at a pass that rewrites `x = a + b * c;` into two instructions and
leaves every other text as it is: the loop exits after two applications. -/
theorem flatten_loop_exit_is_first_fixed_point_witness :
    (fun s : String => if s = "x = a + b * c;" then "t = b * c;x = a + t;" else s)
        "t = b * c;x = a + t;" = "t = b * c;x = a + t;" ∧
    ∃ k, "t = b * c;x = a + t;"
        = (fun s : String => if s = "x = a + b * c;" then "t = b * c;x = a + t;" else s)^[k + 1]
            "x = a + b * c;" ∧
      (fun s : String => if s = "x = a + b * c;" then "t = b * c;x = a + t;" else s)^[k + 1]
          "x = a + b * c;"
        = (fun s : String => if s = "x = a + b * c;" then "t = b * c;x = a + t;" else s)^[k]
            "x = a + b * c;" ∧
      ∀ j, j < k →
        (fun s : String => if s = "x = a + b * c;" then "t = b * c;x = a + t;" else s)^[j + 1]
            "x = a + b * c;"
          ≠ (fun s : String => if s = "x = a + b * c;" then "t = b * c;x = a + t;" else s)^[j]
              "x = a + b * c;" :=
  flatten_loop_exit_is_first_fixed_point
    (fun s : String => if s = "x = a + b * c;" then "t = b * c;x = a + t;" else s) 5
    "x = a + b * c;" "t = b * c;x = a + t;" (by decide)

/-- The flattening loop exits within `n + 1` applications from any text of depth
at most `n`, when every application that changes the text lowers the depth; the
result is the same for every larger allowance. -/
theorem flatten_loop_exits_of_depth_le (F : String → String) (depth : String → Nat)
    (hdec : ∀ s, F s ≠ s → depth (F s) < depth s) :
    ∀ (n : Nat) (input : String), depth input ≤ n →
      ∃ out, ∀ fuel, n + 1 ≤ fuel → flatten_loop F fuel input = some out
  | 0, input, h => by
    have hfix : F input = input := by
      by_contra hne
      have := hdec input hne
      omega
    refine ⟨F input, fun fuel hfuel => ?_⟩
    obtain ⟨fuel, rfl⟩ : ∃ m, fuel = m + 1 := ⟨fuel - 1, by omega⟩
    simp [flatten_loop, hfix]
  | n + 1, input, h => by
    by_cases hfix : F input = input
    · refine ⟨F input, fun fuel hfuel => ?_⟩
      obtain ⟨fuel, rfl⟩ : ∃ m, fuel = m + 1 := ⟨fuel - 1, by omega⟩
      simp [flatten_loop, hfix]
    · have hlt := hdec input hfix
      obtain ⟨out, hout⟩ :=
        flatten_loop_exits_of_depth_le F depth hdec n (F input) (by omega)
      refine ⟨out, fun fuel hfuel => ?_⟩
      obtain ⟨fuel, rfl⟩ : ∃ m, fuel = m + 1 := ⟨fuel - 1, by omega⟩
      rw [flatten_loop, if_neg hfix]
      exact hout fuel (by omega)

/-- C13: if every application of the flattening pass that changes the program
text strictly lowers the nesting depth of the program, a natural number, then
for every input the loop exits within `depth(input) + 1` applications of the
pass: it returns a text with that allowance, and the same text with any larger
one, so no iteration cap is needed. -/
theorem flatten_loop_terminates (F : String → String) (depth : String → Nat)
    (hdec : ∀ s, F s ≠ s → depth (F s) < depth s) (input : String) :
    ∃ out, flatten_loop F (depth input + 1) input = some out ∧
      ∀ fuel, depth input + 1 ≤ fuel → flatten_loop F fuel input = some out := by
  obtain ⟨out, hout⟩ :=
    flatten_loop_exits_of_depth_le F depth hdec (depth input) input (Nat.le_refl _)
  exact ⟨out, hout _ (Nat.le_refl _), hout⟩

/-- C13, at a pass that rewrites `x = a + b * c;` into two instructions and
leaves every other text as it is, with depth 1 for that text and 0 for the
others. -/
theorem flatten_loop_terminates_witness :
    ∃ out,
      flatten_loop
          (fun s : String => if s = "x = a + b * c;" then "t = b * c;x = a + t;" else s)
          ((fun s : String => if s = "x = a + b * c;" then 1 else 0) "x = a + b * c;" + 1)
          "x = a + b * c;" = some out ∧
      ∀ fuel,
        (fun s : String => if s = "x = a + b * c;" then 1 else 0) "x = a + b * c;" + 1 ≤ fuel →
        flatten_loop
          (fun s : String => if s = "x = a + b * c;" then "t = b * c;x = a + t;" else s)
          fuel "x = a + b * c;" = some out :=
  flatten_loop_terminates
    (fun s : String => if s = "x = a + b * c;" then "t = b * c;x = a + t;" else s)
    (fun s : String => if s = "x = a + b * c;" then 1 else 0)
    (fun s hne => by
      by_cases hs : s = "x = a + b * c;"
      · subst hs
        decide
      · simp [hs] at hne)
    "x = a + b * c;"

/-! ## Theorems: partitioning -/

/-- The fold that computes a stage never goes below its starting value, and it
ends above the stage of every earlier instruction that the new one depends on. -/
theorem asap_fold_bounds {α : Type} (depends : α → α → Bool) (inst : α) :
    ∀ (earlier : List (α × Nat)) (start : Nat),
      start ≤ earlier.foldl
          (fun stage p => if depends p.1 inst then max stage (p.2 + 1) else stage) start ∧
      ∀ p ∈ earlier, depends p.1 inst = true →
        p.2 < earlier.foldl
          (fun stage p => if depends p.1 inst then max stage (p.2 + 1) else stage) start
  | [], start => by simp
  | q :: rest, start => by
    simp only [List.foldl_cons, List.mem_cons]
    obtain ⟨hle, hmem⟩ := asap_fold_bounds depends inst rest
      (if depends q.1 inst then max start (q.2 + 1) else start)
    refine ⟨?_, ?_⟩
    · refine Nat.le_trans ?_ hle
      split
      · exact Nat.le_max_left _ _
      · exact Nat.le_refl _
    · rintro p (rfl | hp) hdep
      · refine Nat.lt_of_lt_of_le ?_ hle
        rw [if_pos hdep]
        exact Nat.lt_of_lt_of_le (Nat.lt_succ_self _) (Nat.le_max_right _ _)
      · exact hmem p hp hdep

/-- The scheduling loop keeps the instructions in order and keeps every
dependency between an earlier and a later instruction strictly increasing in
stage. -/
theorem partition_loop_spec {α : Type} (depends : α → α → Bool) :
    ∀ (rest : List α) (scheduled : List (α × Nat)),
      scheduled.Pairwise (fun p c => depends p.1 c.1 = true → p.2 < c.2) →
      (partition_loop depends scheduled rest).map Prod.fst = scheduled.map Prod.fst ++ rest ∧
      (partition_loop depends scheduled rest).Pairwise
        (fun p c => depends p.1 c.1 = true → p.2 < c.2)
  | [], scheduled, h => by simpa [partition_loop] using h
  | inst :: rest, scheduled, h => by
    have hnext : (scheduled ++ [(inst, asap_stage depends scheduled inst)]).Pairwise
        (fun p c => depends p.1 c.1 = true → p.2 < c.2) := by
      rw [List.pairwise_append]
      refine ⟨h, List.pairwise_singleton _ _, ?_⟩
      intro p hp c hc hdep
      rw [List.mem_singleton] at hc
      subst hc
      exact (asap_fold_bounds depends inst scheduled 0).2 p hp hdep
    obtain ⟨hmap, hpair⟩ := partition_loop_spec depends rest _ hnext
    refine ⟨?_, hpair⟩
    rw [partition_loop, hmap]
    simp

/-- C14: in the stage assignment of any instruction sequence, the entries are
the instructions in order of appearance, and for every pair of instructions
`p`, `c`, at positions `i < j` of the sequence, such that `depends p c` holds,
the stage of `p` is below the stage of `c`. -/
theorem partition_respects_dependencies {α : Type} (depends : α → α → Bool)
    (inst_vector : List α) (i j : Nat) (hij : i < j) (hj : j < inst_vector.length)
    (hdep : depends (inst_vector[i]) (inst_vector[j]) = true) :
    (partition_into_pipeline depends inst_vector).map Prod.fst = inst_vector ∧
    ∃ stage_p stage_c,
      (partition_into_pipeline depends inst_vector)[i]? = some (inst_vector[i], stage_p) ∧
      (partition_into_pipeline depends inst_vector)[j]? = some (inst_vector[j], stage_c) ∧
      stage_p < stage_c := by
  have hspec : (partition_into_pipeline depends inst_vector).map Prod.fst = inst_vector ∧
      (partition_into_pipeline depends inst_vector).Pairwise
        (fun p c => depends p.1 c.1 = true → p.2 < c.2) := by
    simpa using partition_loop_spec depends inst_vector [] List.Pairwise.nil
  obtain ⟨hmap, hpair⟩ := hspec
  have hlen : (partition_into_pipeline depends inst_vector).length = inst_vector.length := by
    have := congrArg List.length hmap
    simpa using this
  have hi' : i < (partition_into_pipeline depends inst_vector).length := by omega
  have hj' : j < (partition_into_pipeline depends inst_vector).length := by omega
  have hfst : ∀ (k : Nat) (hk : k < (partition_into_pipeline depends inst_vector).length)
      (hk2 : k < inst_vector.length),
      ((partition_into_pipeline depends inst_vector)[k]).1 = inst_vector[k] := by
    intro k hk hk2
    have h1 : ((partition_into_pipeline depends inst_vector).map Prod.fst)[k]? =
        inst_vector[k]? := by
      rw [hmap]
    rw [List.getElem?_map, List.getElem?_eq_getElem hk, List.getElem?_eq_getElem hk2] at h1
    simpa using h1
  have hrel := List.pairwise_iff_getElem.mp hpair i j hi' hj' hij
  rw [hfst i hi' (by omega), hfst j hj' hj] at hrel
  refine ⟨hmap, ((partition_into_pipeline depends inst_vector)[i]).2,
    ((partition_into_pipeline depends inst_vector)[j]).2, ?_, ?_, hrel hdep⟩
  · rw [List.getElem?_eq_getElem hi', ← hfst i hi' (by omega)]
  · rw [List.getElem?_eq_getElem hj', ← hfst j hj' hj]

/-- C14, at the sequence `t = a + b; u = c; x = t + u; y = x;` with the pair of
the first and the third instruction. -/
theorem partition_respects_dependencies_witness :
    (partition_into_pipeline reads_written
        [⟨"t", ["a", "b"]⟩, ⟨"u", ["c"]⟩, ⟨"x", ["t", "u"]⟩, ⟨"y", ["x"]⟩]).map Prod.fst
      = [⟨"t", ["a", "b"]⟩, ⟨"u", ["c"]⟩, ⟨"x", ["t", "u"]⟩, ⟨"y", ["x"]⟩] ∧
    ∃ stage_p stage_c,
      (partition_into_pipeline reads_written
          [⟨"t", ["a", "b"]⟩, ⟨"u", ["c"]⟩, ⟨"x", ["t", "u"]⟩, ⟨"y", ["x"]⟩])[0]?
        = some (([⟨"t", ["a", "b"]⟩, ⟨"u", ["c"]⟩, ⟨"x", ["t", "u"]⟩, ⟨"y", ["x"]⟩] :
            List Instruction)[0], stage_p) ∧
      (partition_into_pipeline reads_written
          [⟨"t", ["a", "b"]⟩, ⟨"u", ["c"]⟩, ⟨"x", ["t", "u"]⟩, ⟨"y", ["x"]⟩])[2]?
        = some (([⟨"t", ["a", "b"]⟩, ⟨"u", ["c"]⟩, ⟨"x", ["t", "u"]⟩, ⟨"y", ["x"]⟩] :
            List Instruction)[2], stage_c) ∧
      stage_p < stage_c :=
  partition_respects_dependencies reads_written
    [⟨"t", ["a", "b"]⟩, ⟨"u", ["c"]⟩, ⟨"x", ["t", "u"]⟩, ⟨"y", ["x"]⟩] 0 2
    (by decide) (by decide) (by decide)

/-! ## Theorems: totality of the reference scan, literal conjunctions -/

/-- The scan reaches no node outside the restricted grammar in a tree that has
none at any depth. -/
theorem visited_any_eq_false_of_subterms (s : Stmt)
    (hgrammar : (subterms s).any outsideGrammar = false) :
    ¬ (visited s).any outsideGrammar = true := by
  intro h
  obtain ⟨n, hn, hbad⟩ := List.any_eq_true.mp h
  have : (subterms s).any outsideGrammar = true :=
    List.any_eq_true.mpr ⟨n, visited_subset_subterms s n hn, hbad⟩
  rw [hgrammar] at this
  exact Bool.false_ne_true this

/-- C15: on every tree built only of nodes of the restricted grammar, and for
every selector, `gen_var_list` returns a set; and when the tree is an if
statement without else arm, its condition and its then-arm return sets too and
the result is their union. -/
theorem gen_var_list_total (pp : Stmt → String) (sel : VariableTypeSelector) (s : Stmt)
    (hgrammar : (subterms s).any outsideGrammar = false) :
    (∃ vars, gen_var_list pp sel s = some vars) ∧
    ∀ cond thenStmt, s = .IfStmt cond thenStmt none →
      ∃ cond_vars then_vars,
        gen_var_list pp sel cond = some cond_vars ∧
        gen_var_list pp sel thenStmt = some then_vars ∧
        gen_var_list pp sel s = some (cond_vars ∪ then_vars) := by
  have hvis := visited_any_eq_false_of_subterms s hgrammar
  refine ⟨⟨_, by rw [gen_var_list_eq, if_neg hvis]⟩, ?_⟩
  rintro c t rfl
  have hc : ¬ (visited c).any outsideGrammar = true := by
    intro h
    apply hvis
    simp only [visited, List.any_cons, List.any_append, Bool.or_eq_true]
    exact Or.inr (Or.inl h)
  have ht : ¬ (visited t).any outsideGrammar = true := by
    intro h
    apply hvis
    simp only [visited, List.any_cons, List.any_append, Bool.or_eq_true]
    exact Or.inr (Or.inr h)
  have hgc : gen_var_list pp sel c = some (refSet pp sel (visited c)) := by
    rw [gen_var_list_eq, if_neg hc]
  have hgt : gen_var_list pp sel t = some (refSet pp sel (visited t)) := by
    rw [gen_var_list_eq, if_neg ht]
  refine ⟨_, _, hgc, hgt, ?_⟩
  simp only [gen_var_list, hgc, hgt]

/-- C15, at `if (pkt.flag) count = count + 1;`, an if statement without else
arm, with PACKET and STATE selected. -/
theorem gen_var_list_total_witness :
    (∃ vars, gen_var_list printPretty ⟨true, true, false⟩
        (.IfStmt (.ImplicitCastExpr (.MemberExpr (.DeclRefExpr "pkt") false "flag"))
          (.BinaryOperator "=" (.DeclRefExpr "count")
            (.BinaryOperator "+" (.ImplicitCastExpr (.DeclRefExpr "count")) (.IntegerLiteral 1)))
          none) = some vars) ∧
    ∀ cond thenStmt,
      Stmt.IfStmt (.ImplicitCastExpr (.MemberExpr (.DeclRefExpr "pkt") false "flag"))
          (.BinaryOperator "=" (.DeclRefExpr "count")
            (.BinaryOperator "+" (.ImplicitCastExpr (.DeclRefExpr "count")) (.IntegerLiteral 1)))
          none = .IfStmt cond thenStmt none →
      ∃ cond_vars then_vars,
        gen_var_list printPretty ⟨true, true, false⟩ cond = some cond_vars ∧
        gen_var_list printPretty ⟨true, true, false⟩ thenStmt = some then_vars ∧
        gen_var_list printPretty ⟨true, true, false⟩
          (.IfStmt (.ImplicitCastExpr (.MemberExpr (.DeclRefExpr "pkt") false "flag"))
            (.BinaryOperator "=" (.DeclRefExpr "count")
              (.BinaryOperator "+" (.ImplicitCastExpr (.DeclRefExpr "count"))
                (.IntegerLiteral 1)))
            none) = some (cond_vars ∪ then_vars) :=
  gen_var_list_total printPretty ⟨true, true, false⟩ _ (by decide)

namespace StrengthReductionHandler

/-- C16: for an instruction `lhs = (a && b) ? t : f` in which both `a` and `b`
are integer literals, the loop body of the transform fails, and the transform
fails on every function body that contains the instruction: the condition is
not folded and nothing is emitted. -/
theorem transform_fails_on_two_literals (pp : Stmt → String) (children : List Stmt)
    (pkt_name : String) (lhs rhs cond trueExpr falseExpr a b : Stmt)
    (hmem : Stmt.BinaryOperator "=" lhs rhs ∈ children)
    (hrhs : IgnoreParenImpCasts rhs = .ConditionalOperator cond trueExpr falseExpr)
    (hcond : IgnoreParenImpCasts cond = .BinaryOperator "&&" a b)
    (ha : isIntegerLiteral a = true) (hb : isIntegerLiteral b = true) :
    transform_child pp (.BinaryOperator "=" lhs rhs) = none ∧
    transform pp (.CompoundStmt children) pkt_name = none := by
  have hchild : transform_child pp (.BinaryOperator "=" lhs rhs) = none := by
    have hop : isAssignmentOp "=" = true := rfl
    simp only [transform_child, hop, if_true, hrhs, hcond, ha, hb, Bool.and_self]
  refine ⟨hchild, ?_⟩
  simp [transform, transform_loop_eq_none_of_mem pp _ hchild children "" hmem]

/-- C16, at the body `y = 1; x = (1 && 0) ? a : b;`. -/
theorem transform_fails_on_two_literals_witness :
    transform_child printPretty
      (.BinaryOperator "=" (.DeclRefExpr "x")
        (.ConditionalOperator
          (.ParenExpr (.BinaryOperator "&&" (.IntegerLiteral 1) (.IntegerLiteral 0)))
          (.ImplicitCastExpr (.DeclRefExpr "a")) (.ImplicitCastExpr (.DeclRefExpr "b"))))
      = none ∧
    transform printPretty
      (.CompoundStmt
        [.BinaryOperator "=" (.DeclRefExpr "y") (.IntegerLiteral 1),
         .BinaryOperator "=" (.DeclRefExpr "x")
          (.ConditionalOperator
            (.ParenExpr (.BinaryOperator "&&" (.IntegerLiteral 1) (.IntegerLiteral 0)))
            (.ImplicitCastExpr (.DeclRefExpr "a")) (.ImplicitCastExpr (.DeclRefExpr "b")))])
      "pkt" = none :=
  transform_fails_on_two_literals printPretty _ "pkt" (.DeclRefExpr "x") _
    (.ParenExpr (.BinaryOperator "&&" (.IntegerLiteral 1) (.IntegerLiteral 0)))
    (.ImplicitCastExpr (.DeclRefExpr "a")) (.ImplicitCastExpr (.DeclRefExpr "b"))
    (.IntegerLiteral 1) (.IntegerLiteral 0)
    (List.Mem.tail _ (List.Mem.head _)) rfl rfl rfl rfl

end StrengthReductionHandler

/-! ## Theorems: the packet-function transform -/

/-- A declaration on which the loop body fails makes the whole loop fail,
whatever has been accumulated so far. -/
theorem pkt_func_transform_loop_eq_none_of_mem (printer : Decl → String)
    (fbt : Stmt → Option (String × List String)) (d : Decl)
    (hd : pkt_func_transform_child printer fbt d = none) :
    ∀ (decls : List Decl) (ret : String), d ∈ decls →
      pkt_func_transform_loop printer fbt ret decls = none
  | [], _, h => by simp at h
  | e :: rest, ret, h => by
    rcases List.mem_cons.mp h with rfl | h
    · simp [pkt_func_transform_loop, hd]
    · cases he : pkt_func_transform_child printer fbt e with
      | none => simp [pkt_func_transform_loop, he]
      | some piece =>
        simp only [pkt_func_transform_loop, he]
        exact pkt_func_transform_loop_eq_none_of_mem printer fbt d hd rest _ h

/-- What `is_packet_func` returns on a function with at least one parameter. -/
theorem is_packet_func_cons (p : ParmVarDecl) (ps : List ParmVarDecl) :
    ∃ b, is_packet_func (p :: ps) = some b ∧
      (b = true ↔ (p :: ps).length = 1 ∧ p.type = "struct Packet") := by
  refine ⟨_, rfl, ?_⟩
  simp

/-- C17: `is_packet_func` returns on every function with at least one parameter,
and returns true exactly when the function has one parameter and the type of
that parameter is `struct Packet`; on a function without parameters it fails,
and then `get_order` fails on the declaration and `pkt_func_transform` fails on
every program that contains it, whatever the sort, the printer and the body
transform. -/
theorem zero_parameter_function_is_fatal
    (std_sort : (Decl → Decl → Bool) → List Decl → List Decl) (printer : Decl → String)
    (fbt : Stmt → Option (String × List String)) (tu_decl : TranslationUnitDecl)
    (returnType name : String) (body : Option Stmt)
    (hmem : Decl.FunctionDecl returnType name [] body ∈ tu_decl.decls) :
    (∀ (p : ParmVarDecl) (ps : List ParmVarDecl),
      ∃ b, is_packet_func (p :: ps) = some b ∧
        (b = true ↔ (p :: ps).length = 1 ∧ p.type = "struct Packet")) ∧
    is_packet_func [] = none ∧
    get_order (.FunctionDecl returnType name [] body) = none ∧
    pkt_func_transform std_sort printer tu_decl fbt = none := by
  refine ⟨is_packet_func_cons, rfl, rfl, ?_⟩
  unfold pkt_func_transform
  by_cases hlen : 2 ≤ tu_decl.decls.length
  · have hall : tu_decl.decls.all (fun decl => (get_order decl).isSome) = false := by
      rw [List.all_eq_false]
      exact ⟨_, hmem, by simp [get_order, is_packet_func]⟩
    simp [hlen, hall]
  · simp only [hlen, if_false]
    exact pkt_func_transform_loop_eq_none_of_mem printer fbt
      (.FunctionDecl returnType name [] body) rfl _ "" hmem

/-- C17, at a program with the packet record and a function `init` without
parameters. -/
theorem zero_parameter_function_is_fatal_witness :
    (∀ (p : ParmVarDecl) (ps : List ParmVarDecl),
      ∃ b, is_packet_func (p :: ps) = some b ∧
        (b = true ↔ (p :: ps).length = 1 ∧ p.type = "struct Packet")) ∧
    is_packet_func [] = none ∧
    get_order (.FunctionDecl "void" "init" [] none) = none ∧
    pkt_func_transform insertion_sort printDecl
      ⟨[.RecordDecl "Packet" ["flag"], .FunctionDecl "void" "init" [] none]⟩
      (fun body => StrengthReductionHandler.transform printPretty body "pkt") = none :=
  zero_parameter_function_is_fatal insertion_sort printDecl
    (fun body => StrengthReductionHandler.transform printPretty body "pkt")
    ⟨[.RecordDecl "Packet" ["flag"], .FunctionDecl "void" "init" [] none]⟩
    "void" "init" none (List.Mem.tail _ (List.Mem.head _))

end Domino
